import Mathlib

/-! # Verification of the tracker observed-execution CFG engine

A shallow embedding of the CFG core of `tracker` (src/trace.c together
with the driving loop of src/tracker.c) and proofs of the spec's claims
about it.

Addresses, sizes and opcode bytes are modelled as `Nat`; heap pointers to
CFG nodes are modelled as indices into an allocation list (`State.nodes`);
the successor array of a node is modelled as the list of slots written so
far (every write in the source lands at slot `nb_out`, so the array
contents of a reachable node are exactly that list).
-/

namespace Tracker

/-- Instruction type tags, from `instr_type_t` (trace.h). -/
inductive InstrType where
  | BASIC
  | BRANCH
  | CALL
  | JUMP
  | RET
deriving DecidableEq, Repr

open InstrType

/-- BRANCH test of `instr_new` (trace.c:46-47). -/
def branch_cond (op0 op1 : Nat) : Prop :=
  (0x70 ≤ op0 ∧ op0 ≤ 0x7F) ∨ (op0 = 0x0F ∧ 0x80 ≤ op1 ∧ op1 ≤ 0x8F)

/-- CALL test of `instr_new` (trace.c:49-54). -/
def call_cond (op0 op1 op2 size : Nat) : Prop :=
  op0 = 0xE8 ∨ op0 = 0x9A
    ∨ (op0 = 0xFF ∧ (((size = 2 ∧ 0xD0 ≤ op1 ∧ op1 ≤ 0xDF) ∨ size = 3) ∨ op1 = 0x15))
    ∨ (op0 = 0x41 ∧ op1 = 0xFF ∧ ((0xD0 ≤ op2 ∧ op2 ≤ 0xD7) ∨ 3 < size))

/-- JUMP test of `instr_new` (trace.c:56-62). -/
def jump_cond (op0 op1 op2 size : Nat) : Prop :=
  (0xE9 ≤ op0 ∧ op0 ≤ 0xEB)
    ∨ (op0 = 0xFF ∧ (((size = 2 ∧ 0xE0 ≤ op1 ∧ op1 ≤ 0xEF) ∨ size = 4 ∨ size = 5) ∨ op1 = 0x25))
    ∨ (0xE0 ≤ op0 ∧ op0 ≤ 0xE3)
    ∨ (op0 = 0x41 ∧ op1 = 0xFF ∧ 0xE0 ≤ op2 ∧ op2 ≤ 0xE7)
    ∨ (op0 = 0xF3 ∧ (size = 2 ∨ size = 3) ∧ op1 ≠ 0xC3)

/-- RET test of `instr_new` (trace.c:64-66). -/
def ret_cond (op0 op1 size : Nat) : Prop :=
  ((op0 = 0xC3 ∨ op0 = 0xCB) ∧ size = 1)
    ∨ ((op0 = 0xC2 ∨ op0 = 0xCA) ∧ size = 3)
    ∨ (op0 = 0xF3 ∧ op1 = 0xC3 ∧ size = 2)

instance (op0 op1 : Nat) : Decidable (branch_cond op0 op1) := by
  unfold branch_cond; infer_instance

instance (op0 op1 op2 size : Nat) : Decidable (call_cond op0 op1 op2 size) := by
  unfold call_cond; infer_instance

instance (op0 op1 op2 size : Nat) : Decidable (jump_cond op0 op1 op2 size) := by
  unfold jump_cond; infer_instance

instance (op0 op1 size : Nat) : Decidable (ret_cond op0 op1 size) := by
  unfold ret_cond; infer_instance

/-- The classifier of `instr_new` (trace.c:45-70), as a function of the
first three bytes of the observation buffer and the decoded size.  The C
code reads `opcodes[1]` and `opcodes[2]` unconditionally, i.e. also when
`size` is 1 or 2; the buffer handed in by the driver always has 16 bytes,
so those reads see bytes beyond the declared instruction. -/
def instr_type (op0 op1 op2 size : Nat) : InstrType :=
  if branch_cond op0 op1 then BRANCH
  else if call_cond op0 op1 op2 size then CALL
  else if jump_cond op0 op1 op2 size then JUMP
  else if ret_cond op0 op1 size then RET
  else BASIC

/-! The classifier rule table of spec §4.1, transcribed from the spec's
words: rules checked in the order BRANCH, CALL, JUMP, RET, first match
wins, default BASIC.  Kept as separate definitions so that agreement
with the source classifier `instr_type` is a theorem, not a convention. -/

/-- Spec §4.1 BRANCH row: `opcodes[0] ∈ [0x70..0x7F]` (short conditional
jump); or `opcodes[0]=0x0F ∧ opcodes[1] ∈ [0x80..0x8F]`. -/
def branch_rule (op0 op1 : Nat) : Prop :=
  (0x70 ≤ op0 ∧ op0 ≤ 0x7F) ∨ (op0 = 0x0F ∧ 0x80 ≤ op1 ∧ op1 ≤ 0x8F)

/-- Spec §4.1 CALL row: `0xE8`; `0x9A`; `0xFF` with `size=2 ∧
opcodes[1] ∈ [0xD0..0xDF]`, or `opcodes[1]=0x15`, or `size=3`;
`0x41 ∧ opcodes[1]=0xFF` with `opcodes[2] ∈ [0xD0..0xD7]` or `size>3`. -/
def call_rule (op0 op1 op2 size : Nat) : Prop :=
  op0 = 0xE8 ∨ op0 = 0x9A
    ∨ (op0 = 0xFF ∧ ((size = 2 ∧ 0xD0 ≤ op1 ∧ op1 ≤ 0xDF) ∨ op1 = 0x15 ∨ size = 3))
    ∨ (op0 = 0x41 ∧ op1 = 0xFF ∧ ((0xD0 ≤ op2 ∧ op2 ≤ 0xD7) ∨ 3 < size))

/-- Spec §4.1 JUMP row: `opcodes[0] ∈ [0xE9..0xEB]`; `opcodes[0]=0xFF`
with `size=2 ∧ opcodes[1] ∈ [0xE0..0xEF]`, or `opcodes[1]=0x25`, or
`size ∈ {4,5}`; `opcodes[0] ∈ [0xE0..0xE3]`; `0x41 FF Ex` with
`opcodes[2] ∈ [0xE0..0xE7]`; `0xF3` prefix with `size ∈ {2,3}` and
`opcodes[1] ≠ 0xC3`. -/
def jump_rule (op0 op1 op2 size : Nat) : Prop :=
  (0xE9 ≤ op0 ∧ op0 ≤ 0xEB)
    ∨ (op0 = 0xFF ∧ ((size = 2 ∧ 0xE0 ≤ op1 ∧ op1 ≤ 0xEF) ∨ op1 = 0x25 ∨ size = 4 ∨ size = 5))
    ∨ (0xE0 ≤ op0 ∧ op0 ≤ 0xE3)
    ∨ (op0 = 0x41 ∧ op1 = 0xFF ∧ 0xE0 ≤ op2 ∧ op2 ≤ 0xE7)
    ∨ (op0 = 0xF3 ∧ (size = 2 ∨ size = 3) ∧ op1 ≠ 0xC3)

/-- Spec §4.1 RET row: `opcodes[0] ∈ {0xC3,0xCB} ∧ size=1`;
`opcodes[0] ∈ {0xC2,0xCA} ∧ size=3`; `opcodes[0]=0xF3 ∧
opcodes[1]=0xC3 ∧ size=2`. -/
def ret_rule (op0 op1 size : Nat) : Prop :=
  ((op0 = 0xC3 ∨ op0 = 0xCB) ∧ size = 1)
    ∨ ((op0 = 0xC2 ∨ op0 = 0xCA) ∧ size = 3)
    ∨ (op0 = 0xF3 ∧ op1 = 0xC3 ∧ size = 2)

instance (op0 op1 : Nat) : Decidable (branch_rule op0 op1) := by
  unfold branch_rule; infer_instance

instance (op0 op1 op2 size : Nat) : Decidable (call_rule op0 op1 op2 size) := by
  unfold call_rule; infer_instance

instance (op0 op1 op2 size : Nat) : Decidable (jump_rule op0 op1 op2 size) := by
  unfold jump_rule; infer_instance

instance (op0 op1 size : Nat) : Decidable (ret_rule op0 op1 size) := by
  unfold ret_rule; infer_instance

/-- Spec §4.1 as a classifier: rules in the order BRANCH, CALL, JUMP,
RET, first match wins, default BASIC. -/
def classify_spec (op0 op1 op2 size : Nat) : InstrType :=
  if branch_rule op0 op1 then BRANCH
  else if call_rule op0 op1 op2 size then CALL
  else if jump_rule op0 op1 op2 size then JUMP
  else if ret_rule op0 op1 size then RET
  else BASIC

/-! ## Hash function (trace.c:121-176)

`fasthash64` consumes the buffer in 64-bit little-endian words with a
tail switch for the residual 1-7 bytes; all arithmetic is modulo 2^64. -/

/-- Compression function of the Merkle-Damgard construction, the `mix`
macro (trace.c:122-127).  `h ^= h >> 23; h *= 0x2127598bf4325c37;
h ^= h >> 47`, on 64-bit words. -/
def mix (h : Nat) : Nat :=
  let h1 := h ^^^ (h >>> 23)
  let h2 := (h1 * 0x2127598bf4325c37) % 2 ^ 64
  h2 ^^^ (h2 >>> 47)

/-- Little-endian combination of up to 8 bytes, as done by the 64-bit
word loads and by the fall-through tail switch of `fasthash64`. -/
def le64 (bs : List Nat) : Nat :=
  bs.foldr (fun b acc => b + 256 * acc) 0

/-- The word loop and tail switch of `fasthash64` (trace.c:140-167). -/
def fh64_loop (h : Nat) (bs : List Nat) : Nat :=
  match bs with
  | b0 :: b1 :: b2 :: b3 :: b4 :: b5 :: b6 :: b7 :: rest =>
      fh64_loop (((h ^^^ mix (le64 [b0, b1, b2, b3, b4, b5, b6, b7]))
        * 0x880355f21e6d1965) % 2 ^ 64) rest
  | [] => h
  | rest => ((h ^^^ mix (le64 rest)) * 0x880355f21e6d1965) % 2 ^ 64

/-- `fasthash64 (buf, len, seed)` (trace.c:129-170) with `len` the length
of `buf`. -/
def fasthash64 (buf : List Nat) (seed : Nat) : Nat :=
  mix (fh64_loop ((seed % 2 ^ 64) ^^^ ((buf.length * 0x880355f21e6d1965) % 2 ^ 64)) buf)

/-! ## Instructions and observations -/

/-- `instr_t` (trace.c:19-26): address, declared size, the `size` opcode
bytes copied by `memcpy`, and the classified type. -/
structure Instr where
  address : Nat
  size : Nat
  opcodes : List Nat
  typ : InstrType
deriving DecidableEq, Repr

/-- `hash_instr` (trace.c:172-176): fasthash64 of the stored opcode
bytes, seeded with the instruction's address. -/
def hash_instr (i : Instr) : Nat :=
  fasthash64 i.opcodes i.address

/-- One step of the driver (tracker.c main loop): the instruction
pointer, the decoded size, and the 16-byte opcode buffer read from the
child's memory. -/
structure Obs where
  address : Nat
  size : Nat
  bytes : List Nat
deriving DecidableEq, Repr

/-- `instr_new` (trace.c:28-71) applied to an observation: copies the
first `size` bytes of the buffer and classifies from the buffer's first
three bytes (the classifier does not guard its reads by `size`). -/
def mkInstr (o : Obs) : Instr :=
  { address := o.address
    size := o.size
    opcodes := o.bytes.take o.size
    typ := instr_type (o.bytes.getD 0 0) (o.bytes.getD 1 0) (o.bytes.getD 2 0) o.size }

/-! ## Shadow stack (trace.c:417-447)

The C stack is a singly-linked list whose empty stack is the NULL
pointer; it is modelled as a `List` of node indices with `[]` for NULL. -/

/-- `stack_push` (trace.c:423-429): `list_insert_before`, with
`list_new` for the NULL stack — both cons. -/
def stack_push (s : List Nat) (d : Nat) : List Nat :=
  d :: s

/-- `stack_pop` (trace.c:431-439): returns NULL (the empty stack) when
the stack is NULL, the tail otherwise. -/
def stack_pop (s : List Nat) : List Nat :=
  match s with
  | [] => []
  | _ :: rest => rest

/-- `stack_get_top` (trace.c:441-447): NULL (`none`) on the empty
stack, the top datum otherwise. -/
def stack_get_top (s : List Nat) : Option Nat :=
  match s with
  | [] => none
  | d :: _ => some d

/-! ## CFG nodes and the builder state -/

/-- `cfg_t` (trace.c:108-116).  `succ` lists the successor slots written
so far (every write in the source lands at slot `nb_out`), `cap` the
allocated capacity of the successor array. -/
structure Node where
  instr : Instr
  nb_in : Nat
  nb_out : Nat
  name : Nat
  succ : List Nat
  cap : Nat
deriving DecidableEq, Repr

instance : Inhabited Node :=
  ⟨{ instr := { address := 0, size := 0, opcodes := [], typ := InstrType.BASIC }
     nb_in := 0, nb_out := 0, name := 0, succ := [], cap := 0 }⟩

/-- `DEFAULT_HASHTABLE_SIZE` (trace.h). -/
def HTSIZE : Nat := 65536

/-- The builder state: the allocation list of nodes (indices play the
role of `cfg_t *` pointers), the hashtable buckets (lists of node
indices), the shadow stack, the function roster (`first_entry` /
`tail_entries` list of tracker.c), and the current node `cfg`. -/
structure State where
  nodes : List Node
  buckets : Nat → List Nat
  stack : List Nat
  roster : List Nat
  prev : Nat

/-- Dereference a node pointer. -/
def getNode (s : State) (i : Nat) : Node :=
  s.nodes.getD i default

/-- Write back a node through its pointer. -/
def setNode (s : State) (i : Nat) (n : Node) : State :=
  { s with nodes := s.nodes.set i n }

/-- Bucket selection `hash_instr (instr) % ht->size` (trace.c:227). -/
def bucketOf (i : Instr) : Nat :=
  hash_instr i % HTSIZE

/-- `hashtable_insert` (trace.c:218-258): scan the bucket; if a node
with the same address is already there, leave the table unchanged
("present-already"); otherwise append the node at the end. -/
def hashtable_insert (s : State) (idx : Nat) : State :=
  if (s.buckets (bucketOf (getNode s idx).instr)).any
      (fun j => (getNode s j).instr.address = (getNode s idx).instr.address) then
    s
  else
    { s with buckets := fun k =>
        if k = bucketOf (getNode s idx).instr then
          s.buckets (bucketOf (getNode s idx).instr) ++ [idx]
        else s.buckets k }

/-- `hashtable_lookup` (trace.c:260-281): scan the bucket selected by
the hash, return the first node whose address matches. -/
def hashtable_lookup (s : State) (ins : Instr) : Option Nat :=
  (s.buckets (bucketOf ins)).find? (fun j => (getNode s j).instr.address = ins.address)

/-- The halving loop of `is_power_2` (trace.c:497-502), with a fuel
argument for structural recursion; the loop halves `n` each iteration,
so a fuel of `n` is never exhausted (see `is_power_2_iff`). -/
def is_power_2_loop : Nat → Nat → Bool
  | _, 0 => false
  | 0, _ => false
  | fuel + 1, n =>
      if n % 2 = 0 then
        if n = 2 then true else is_power_2_loop fuel (n / 2)
      else false

/-- `is_power_2` (trace.c:492-504).  Note: false at 0 and at 1. -/
def is_power_2 (n : Nat) : Bool :=
  is_power_2_loop n n

/-- Install the edge `m → n` without growing the successor array: the
slot write `successor[nb_out] = new; nb_out++; new->nb_in++;
new->name = CFG->name` (trace.c:514-517, 537-540). -/
def add_edge (s : State) (m n : Nat) : State :=
  let M := getNode s m
  let s1 := setNode s m { M with succ := M.succ ++ [n], nb_out := M.nb_out + 1 }
  let N := getNode s1 n
  setNode s1 n { N with nb_in := N.nb_in + 1, name := (getNode s1 m).name }

/-- The JUMP/RET append path (trace.c:542-554, 580-591): grow the
successor array to `2 * nb_out` when `is_power_2 (nb_out)`, then install
the edge at slot `nb_out`. -/
def grow_append (s : State) (m n : Nat) : State :=
  let M := getNode s m
  let M1 := if is_power_2 M.nb_out then { M with cap := 2 * M.nb_out } else M
  add_edge (setNode s m M1) m n

/-- `aux_cfg_insert` (trace.c:506-596).  Returns `none` where the C code
returns NULL (abort of the build), otherwise the updated state; the C
function's return value is always the inserted node `n` on success. -/
def aux_cfg_insert (s : State) (cfg n : Nat) : Option State :=
  let C := getNode s cfg
  -- trace.c:512: the parent has no successor yet (and is not a RET)
  if C.instr.typ ≠ RET ∧ C.succ = [] then
    some (add_edge s cfg n)
  else
    match C.instr.typ with
    | BASIC =>
        -- trace.c:525-528: a BASIC with a successor is a classification error
        if 1 ≤ C.nb_out then none else some s
    | BRANCH =>
        -- trace.c:529-541: second successor at slot 1
        if 2 ≤ C.nb_out then none else some (add_edge s cfg n)
    | CALL =>
        -- no `case CALL` in the switch: fall through, no edge added
        some s
    | JUMP =>
        -- trace.c:542-554
        some (grow_append s cfg n)
    | RET =>
        -- trace.c:555-592: consult the shadow stack
        match s.stack with
        | top :: _ =>
            let T := getNode s top
            if (getNode s n).instr.address = T.instr.address + T.instr.size then
              -- normal fall-through return: rewrite CFG ← top, pop
              let s1 := { s with stack := stack_pop s.stack }
              if T.succ.any (fun j => (getNode s1 j).instr.address
                  = (getNode s1 n).instr.address) then
                some s1
              else
                some (grow_append s1 top n)
            else
              some (grow_append s cfg n)
        | [] =>
            some (grow_append s cfg n)

/-- `cfg_new` (trace.c:458-490): allocate a node (capacity 1 for BASIC,
2 otherwise; all counters zero; `name` zero) and insert it into the
hashtable.  Returns the state and the new node's pointer. -/
def mkNode (ins : Instr) : Node :=
  { instr := ins, nb_in := 0, nb_out := 0, name := 0, succ := []
    cap := if ins.typ = BASIC then 1 else 2 }

def cfg_new (s : State) (ins : Instr) : State × Nat :=
  (hashtable_insert { s with nodes := s.nodes ++ [mkNode ins] } s.nodes.length,
    s.nodes.length)

/-- `cfg_insert` (trace.c:598-628).  `cfg` is the current node (the
predecessor `P`), `ins` the freshly decoded instruction.  Returns the
updated state and the node that becomes current. -/
def cfg_insert (s : State) (cfg : Nat) (ins : Instr) : Option (State × Nat) :=
  match hashtable_lookup s ins with
  | none =>
      -- first time seeing this instruction
      let s1 := (cfg_new s ins).1
      let new := (cfg_new s ins).2
      let s2 :=
        if (getNode s1 cfg).instr.typ = CALL then
          -- append the call target to the roster, push the call site
          { s1 with roster := s1.roster ++ [new], stack := stack_push s1.stack cfg }
        else s1
      (aux_cfg_insert s2 cfg new).map (fun s3 => (s3, new))
  | some found =>
      let s1 :=
        if (getNode s cfg).instr.typ = CALL then
          { s with stack := stack_push s.stack cfg }
        else s
      -- checking if the found node is already a successor of the parent
      if (getNode s1 cfg).succ.any (fun j => (getNode s1 j).instr.address
          = (getNode s1 found).instr.address) then
        some (s1, found)
      else
        (aux_cfg_insert s1 cfg found).map (fun s3 => (s3, found))

/-- The very first observation (tracker.c:587-603): `cfg_new` on the
empty state, then `first_entry = [root]`. -/
def initState (o : Obs) : State :=
  let s0 : State :=
    { nodes := [], buckets := fun _ => [], stack := [], roster := [], prev := 0 }
  { (cfg_new s0 (mkInstr o)).1 with
    roster := [(cfg_new s0 (mkInstr o)).2]
    prev := (cfg_new s0 (mkInstr o)).2 }

/-- One later observation (tracker.c:604-619): `cfg_insert` from the
current node, which then becomes the new current node. -/
def stepObs (s : State) (o : Obs) : Option State :=
  (cfg_insert s s.prev (mkInstr o)).map (fun p => { p.1 with prev := p.2 })

/-- Run the builder over a non-empty observation stream. -/
def run (l : List Obs) : Option State :=
  match l with
  | [] => none
  | o :: rest => rest.foldlM stepObs (initState o)

/-- Well-formedness of an observation stream: sizes are positive and
within the buffer, and two observations of the same address carry the
same declared size and the same declared opcode bytes (the spec's
"a given address in a non-self-modifying binary carries a fixed
instruction"). -/
def Consistent (l : List Obs) : Prop :=
  (∀ o ∈ l, 0 < o.size ∧ o.size ≤ o.bytes.length) ∧
  (∀ o1 ∈ l, ∀ o2 ∈ l, o1.address = o2.address →
    o1.size = o2.size ∧ o1.bytes.take o1.size = o2.bytes.take o2.size)

/-! ## Basic state lemmas -/

/-- Address of the node behind a pointer. -/
def addrOf (s : State) (j : Nat) : Nat :=
  (getNode s j).instr.address

theorem getNode_setNode_self (s : State) (i : Nat) (x : Node)
    (h : i < s.nodes.length) : getNode (setNode s i x) i = x := by
  simp [getNode, setNode, List.getD_eq_getElem?_getD, List.getElem?_set_self, h]

theorem getNode_setNode_ne (s : State) (i j : Nat) (x : Node)
    (h : i ≠ j) : getNode (setNode s i x) j = getNode s j := by
  simp [getNode, setNode, List.getD_eq_getElem?_getD, List.getElem?_set_ne h]

theorem setNode_nodes_length (s : State) (i : Nat) (x : Node) :
    (setNode s i x).nodes.length = s.nodes.length := by
  simp [setNode]

theorem setNode_stack (s : State) (i : Nat) (x : Node) :
    (setNode s i x).stack = s.stack := rfl

theorem setNode_roster (s : State) (i : Nat) (x : Node) :
    (setNode s i x).roster = s.roster := rfl

theorem setNode_buckets (s : State) (i : Nat) (x : Node) :
    (setNode s i x).buckets = s.buckets := rfl

theorem getNode_stack_update (s : State) (st : List Nat) (j : Nat) :
    getNode { s with stack := st } j = getNode s j := rfl

/-! ## Shape lemmas for the edge installers -/

theorem add_edge_length (s : State) (m n : Nat) :
    (add_edge s m n).nodes.length = s.nodes.length := by
  simp [add_edge, setNode_nodes_length]

theorem add_edge_stack (s : State) (m n : Nat) :
    (add_edge s m n).stack = s.stack := rfl

theorem add_edge_roster (s : State) (m n : Nat) :
    (add_edge s m n).roster = s.roster := rfl

theorem add_edge_buckets (s : State) (m n : Nat) :
    (add_edge s m n).buckets = s.buckets := rfl

theorem add_edge_get_other (s : State) (m n t : Nat) (h1 : t ≠ m) (h2 : t ≠ n) :
    getNode (add_edge s m n) t = getNode s t := by
  unfold add_edge
  rw [getNode_setNode_ne _ _ _ _ (Ne.symm h2), getNode_setNode_ne _ _ _ _ (Ne.symm h1)]

theorem add_edge_get_m (s : State) (m n : Nat) (hm : m < s.nodes.length) (hnm : n ≠ m) :
    getNode (add_edge s m n) m =
      { getNode s m with succ := (getNode s m).succ ++ [n], nb_out := (getNode s m).nb_out + 1 } := by
  unfold add_edge
  rw [getNode_setNode_ne _ _ _ _ hnm, getNode_setNode_self _ _ _ hm]

theorem add_edge_get_n (s : State) (m n : Nat) (hn : n < s.nodes.length) (hnm : n ≠ m) :
    getNode (add_edge s m n) n =
      { getNode s n with nb_in := (getNode s n).nb_in + 1, name := (getNode s m).name } := by
  unfold add_edge
  rw [getNode_setNode_self]
  · rw [getNode_setNode_ne _ _ _ _ (Ne.symm hnm)]
    congr 1
    by_cases hm : m < s.nodes.length
    · rw [getNode_setNode_self _ _ _ hm]
    · unfold setNode getNode
      rw [List.set_eq_of_length_le (by omega)]
  · simpa [setNode] using hn

theorem add_edge_get_self (s : State) (m : Nat) (hm : m < s.nodes.length) :
    getNode (add_edge s m m) m =
      { getNode s m with
        succ := (getNode s m).succ ++ [m]
        nb_out := (getNode s m).nb_out + 1
        nb_in := (getNode s m).nb_in + 1 } := by
  unfold add_edge
  rw [getNode_setNode_self]
  · rw [getNode_setNode_self _ _ _ hm]
  · simpa [setNode] using hm

theorem grow_append_length (s : State) (m n : Nat) :
    (grow_append s m n).nodes.length = s.nodes.length := by
  simp [grow_append, add_edge_length, setNode_nodes_length]

theorem grow_append_stack (s : State) (m n : Nat) :
    (grow_append s m n).stack = s.stack := rfl

theorem grow_append_roster (s : State) (m n : Nat) :
    (grow_append s m n).roster = s.roster := rfl

theorem grow_append_buckets (s : State) (m n : Nat) :
    (grow_append s m n).buckets = s.buckets := rfl

/-- The capacity written by the JUMP/RET growth step. -/
def grown_cap (nd : Node) : Nat :=
  if is_power_2 nd.nb_out then 2 * nd.nb_out else nd.cap

theorem grow_append_get_other (s : State) (m n t : Nat) (h1 : t ≠ m) (h2 : t ≠ n) :
    getNode (grow_append s m n) t = getNode s t := by
  unfold grow_append
  rw [add_edge_get_other _ _ _ _ h1 h2, getNode_setNode_ne _ _ _ _ (Ne.symm h1)]

theorem grow_append_get_m (s : State) (m n : Nat) (hm : m < s.nodes.length) (hnm : n ≠ m) :
    getNode (grow_append s m n) m =
      { getNode s m with
        cap := grown_cap (getNode s m)
        succ := (getNode s m).succ ++ [n]
        nb_out := (getNode s m).nb_out + 1 } := by
  unfold grow_append grown_cap
  rw [add_edge_get_m _ _ _ (by simpa [setNode] using hm) hnm, getNode_setNode_self _ _ _ hm]
  split <;> rfl

theorem grow_append_get_n (s : State) (m n : Nat) (hn : n < s.nodes.length) (hnm : n ≠ m) :
    getNode (grow_append s m n) n =
      { getNode s n with nb_in := (getNode s n).nb_in + 1, name := (getNode s m).name } := by
  unfold grow_append
  rw [add_edge_get_n _ _ _ (by simpa [setNode] using hn) hnm,
    getNode_setNode_ne _ _ _ _ (Ne.symm hnm)]
  by_cases hm : m < s.nodes.length
  · rw [getNode_setNode_self _ _ _ hm]; split <;> rfl
  · unfold setNode getNode
    rw [List.set_eq_of_length_le (by omega)]

theorem grow_append_get_self (s : State) (m : Nat) (hm : m < s.nodes.length) :
    getNode (grow_append s m m) m =
      { getNode s m with
        cap := grown_cap (getNode s m)
        succ := (getNode s m).succ ++ [m]
        nb_out := (getNode s m).nb_out + 1
        nb_in := (getNode s m).nb_in + 1 } := by
  unfold grow_append grown_cap
  rw [add_edge_get_self _ _ (by simpa [setNode] using hm), getNode_setNode_self _ _ _ hm]
  split <;> rfl


/-! ## Scenario lemmas for `aux_cfg_insert`

One lemma per control path of trace.c:506-596. -/

theorem aux_first (s : State) (c n : Nat)
    (htyp : (getNode s c).instr.typ ≠ RET) (hsucc : (getNode s c).succ = []) :
    aux_cfg_insert s c n = some (add_edge s c n) := by
  simp [aux_cfg_insert, htyp, hsucc]

theorem aux_basic_fail (s : State) (c n : Nat)
    (htyp : (getNode s c).instr.typ = BASIC) (hsucc : (getNode s c).succ ≠ [])
    (hout : 1 ≤ (getNode s c).nb_out) :
    aux_cfg_insert s c n = none := by
  simp [aux_cfg_insert, htyp, hsucc, hout]

theorem aux_branch_fail (s : State) (c n : Nat)
    (htyp : (getNode s c).instr.typ = BRANCH) (hsucc : (getNode s c).succ ≠ [])
    (hout : 2 ≤ (getNode s c).nb_out) :
    aux_cfg_insert s c n = none := by
  simp [aux_cfg_insert, htyp, hsucc, hout]

theorem aux_branch_append (s : State) (c n : Nat)
    (htyp : (getNode s c).instr.typ = BRANCH) (hsucc : (getNode s c).succ ≠ [])
    (hout : (getNode s c).nb_out < 2) :
    aux_cfg_insert s c n = some (add_edge s c n) := by
  simp [aux_cfg_insert, htyp, hsucc, Nat.not_le_of_lt hout]

theorem aux_call_noop (s : State) (c n : Nat)
    (htyp : (getNode s c).instr.typ = CALL) (hsucc : (getNode s c).succ ≠ []) :
    aux_cfg_insert s c n = some s := by
  simp [aux_cfg_insert, htyp, hsucc]

theorem aux_jump (s : State) (c n : Nat)
    (htyp : (getNode s c).instr.typ = JUMP) (hsucc : (getNode s c).succ ≠ []) :
    aux_cfg_insert s c n = some (grow_append s c n) := by
  simp [aux_cfg_insert, htyp, hsucc]

theorem aux_ret_mismatch (s : State) (c n top : Nat) (rest : List Nat)
    (htyp : (getNode s c).instr.typ = RET) (hst : s.stack = top :: rest)
    (hne : (getNode s n).instr.address
      ≠ (getNode s top).instr.address + (getNode s top).instr.size) :
    aux_cfg_insert s c n = some (grow_append s c n) := by
  simp [aux_cfg_insert, htyp, hst, hne]


theorem aux_ret_empty (s : State) (c n : Nat)
    (htyp : (getNode s c).instr.typ = RET) (hst : s.stack = []) :
    aux_cfg_insert s c n = some (grow_append s c n) := by
  simp [aux_cfg_insert, htyp, hst]

theorem aux_ret_match_dup (s : State) (c n top : Nat) (rest : List Nat)
    (htyp : (getNode s c).instr.typ = RET) (hst : s.stack = top :: rest)
    (heq : (getNode s n).instr.address
      = (getNode s top).instr.address + (getNode s top).instr.size)
    (hdup : ∃ j ∈ (getNode s top).succ,
      (getNode s j).instr.address = (getNode s n).instr.address) :
    aux_cfg_insert s c n = some { s with stack := rest } := by
  have hany : ((getNode s top).succ.any
      (fun j => decide ((getNode s j).instr.address = (getNode s n).instr.address))) = true := by
    simp only [List.any_eq_true, decide_eq_true_eq]
    exact hdup
  simp only [aux_cfg_insert, htyp, hst, stack_pop, getNode_stack_update]
  rw [if_pos heq, if_pos hany]
  simp

theorem aux_ret_match_new (s : State) (c n top : Nat) (rest : List Nat)
    (htyp : (getNode s c).instr.typ = RET) (hst : s.stack = top :: rest)
    (heq : (getNode s n).instr.address
      = (getNode s top).instr.address + (getNode s top).instr.size)
    (hdup : ∀ j ∈ (getNode s top).succ,
      (getNode s j).instr.address ≠ (getNode s n).instr.address) :
    aux_cfg_insert s c n = some (grow_append { s with stack := rest } top n) := by
  have hany : ((getNode s top).succ.any
      (fun j => decide ((getNode s j).instr.address = (getNode s n).instr.address))) = false := by
    simp only [List.any_eq_false, decide_eq_true_eq]
    exact hdup
  simp only [aux_cfg_insert, htyp, hst, stack_pop, getNode_stack_update]
  rw [if_pos heq]
  simp [hany]




/-! ## Rule-table agreement lemmas -/

theorem branch_cond_iff (op0 op1 : Nat) : branch_cond op0 op1 ↔ branch_rule op0 op1 := by
  unfold branch_cond branch_rule; exact Iff.rfl

theorem call_cond_iff (op0 op1 op2 size : Nat) :
    call_cond op0 op1 op2 size ↔ call_rule op0 op1 op2 size := by
  unfold call_cond call_rule; tauto

theorem jump_cond_iff (op0 op1 op2 size : Nat) :
    jump_cond op0 op1 op2 size ↔ jump_rule op0 op1 op2 size := by
  unfold jump_cond jump_rule
  refine or_congr Iff.rfl (or_congr (and_congr Iff.rfl ?_) Iff.rfl)
  tauto

theorem ret_cond_iff (op0 op1 size : Nat) : ret_cond op0 op1 size ↔ ret_rule op0 op1 size := by
  unfold ret_cond ret_rule; exact Iff.rfl

/-! ## Witness fixtures

A small concrete state: a CALL site at address 100 (size 2) whose sole
successor is the RET at address 200, plus the call's fall-through BASIC
node at address 102 not yet wired; the shadow stack holds the call
site. -/

def wCall : Node :=
  { instr := ⟨100, 2, [0xE8, 0x00], CALL⟩, nb_in := 0, nb_out := 1
    name := 0, succ := [1], cap := 2 }

def wRet : Node :=
  { instr := ⟨200, 1, [0xC3], RET⟩, nb_in := 1, nb_out := 0
    name := 0, succ := [], cap := 2 }

def wBasic : Node :=
  { instr := ⟨102, 1, [0x90], BASIC⟩, nb_in := 0, nb_out := 0
    name := 0, succ := [], cap := 1 }

def wState : State :=
  { nodes := [wCall, wRet, wBasic], buckets := fun _ => [], stack := [0]
    roster := [0, 1], prev := 1 }

/-! ## Claims -/

/-- C3: for every opcode byte sequence and size, the classifier assigns
the type tag given by the §4.1 rule table with the rules checked in the
order BRANCH, CALL, JUMP, RET and the first matching rule winning,
defaulting to BASIC when no rule matches; in particular a first byte
0xFF with size 3 is classified CALL (the earlier rule) even though the
JUMP patterns also mention 0xFF forms. -/
theorem C3_classifier_follows_rule_table :
    (∀ op0 op1 op2 size, instr_type op0 op1 op2 size = classify_spec op0 op1 op2 size) ∧
    (∀ op1 op2, instr_type 0xFF op1 op2 3 = CALL) := by
  constructor
  · intro op0 op1 op2 size
    unfold instr_type classify_spec
    simp only [branch_cond_iff, call_cond_iff, jump_cond_iff, ret_cond_iff]
  · intro op1 op2
    unfold instr_type
    have h1 : ¬ branch_cond 0xFF op1 := by unfold branch_cond; omega
    have h2 : call_cond 0xFF op1 op2 3 := by unfold call_cond; omega
    simp [h1, h2]

/-- C4: the claim that classification depends only on `size` and on the
opcode bytes at indices `0..size-1` fails on the code: for a size-1
instruction with first byte 0x0F the tag depends on the byte at index 1
(beyond the declared size), giving BRANCH for 0x80 and BASIC for 0x00
although both observations carry the same declared byte sequence.  This
contradicts the spec's stated invariant that `type` is a pure function
of the instruction's own opcode bytes; the missing size guard in
`instr_new` (trace.c:47, 51-54, 57-62, 66) is the code bug. -/
theorem C4_size1_tag_depends_on_next_byte :
    (mkInstr ⟨4096, 1, [0x0F, 0x80, 0x00]⟩).typ = BRANCH ∧
    (mkInstr ⟨4096, 1, [0x0F, 0x00, 0x00]⟩).typ = BASIC ∧
    (⟨4096, 1, [0x0F, 0x80, 0x00]⟩ : Obs).size = (⟨4096, 1, [0x0F, 0x00, 0x00]⟩ : Obs).size ∧
    ([0x0F, 0x80, 0x00] : List Nat).take 1 = ([0x0F, 0x00, 0x00] : List Nat).take 1 := by
  refine ⟨?_, ?_, rfl, rfl⟩ <;> decide

/-- C2: the claim that a first-seen node after a CALL predecessor
receives a fresh `function_tag = |F|-1` fails on the code: after
observing a CALL at 100 and then a first-seen instruction at 8192, the
roster `F` has the two nodes, so `|F|-1 = 1`, but the call target's
`name` is 0, inherited from the CALL site by `aux_cfg_insert`
(trace.c:517); the fresh-tag counter `nb_name` (trace.c:119) is declared
but never updated.  The roster-append part of the claim does hold. -/
theorem C2_call_target_tag_not_fresh :
    (run [⟨100, 2, [0xE8, 0x00, 0x00]⟩, ⟨8192, 1, [0x90, 0x00, 0x00]⟩]).map
      (fun s => (s.roster, (getNode s 1).name, (getNode s 0).instr.typ)) =
    some ([0, 1], 0, CALL) := by
  rfl

/-- C10: the shadow-stack operations are total at the empty stack:
`stack_get_top` and `stack_pop` applied to an empty (NULL) stack return
the empty result instead of failing, and the RET branch of
`aux_cfg_insert` guards with a non-emptiness test, so processing a RET
with an empty shadow stack never reaches an underflow error — it takes
the fallback JUMP-like append path. -/
theorem C10_stack_total_at_empty :
    stack_pop ([] : List Nat) = [] ∧
    stack_get_top ([] : List Nat) = none ∧
    (∀ s c n, (getNode s c).instr.typ = RET → s.stack = [] →
      aux_cfg_insert s c n = some (grow_append s c n)) :=
  ⟨rfl, rfl, aux_ret_empty⟩

/-- Witness for C10 at a concrete state: a RET current node with the
shadow stack empty; the insertion succeeds through the fallback append
path. -/
theorem C10_stack_total_at_empty_witness :
    aux_cfg_insert { wState with stack := [] } 1 2
      = some (grow_append { wState with stack := [] } 1 2) :=
  C10_stack_total_at_empty.2.2 { wState with stack := [] } 1 2 (by decide) rfl

/-- C1: for every insertion of a node `N` whose predecessor `P` has type
RET: if the shadow stack is non-empty and its top call site `C`
satisfies `N.address = C.address + C.size`, then the edge is installed
from `C` to `N` (not from `P`), `C` is popped from the stack, and no new
edge is added when `N` is already among `C`'s successors; if the shadow
stack is empty or its top does not match, the edge is still installed,
from the RET node `P` itself, by the JUMP-like append path
(`grow_append`). -/
theorem C1_ret_edge_insertion (s : State) (c n : Nat)
    (hc : c < s.nodes.length) (hn : n < s.nodes.length)
    (htyp : (getNode s c).instr.typ = RET) :
    (∀ top rest, s.stack = top :: rest →
      top < s.nodes.length →
      (getNode s top).instr.typ = CALL →
      0 < (getNode s top).instr.size →
      (getNode s n).instr.address
        = (getNode s top).instr.address + (getNode s top).instr.size →
      ((∀ j ∈ (getNode s top).succ,
          (getNode s j).instr.address ≠ (getNode s n).instr.address) →
        aux_cfg_insert s c n = some (grow_append { s with stack := rest } top n) ∧
        (getNode (grow_append { s with stack := rest } top n) top).succ
          = (getNode s top).succ ++ [n] ∧
        (getNode (grow_append { s with stack := rest } top n) c).succ
          = (getNode s c).succ ∧
        (grow_append { s with stack := rest } top n).stack = rest) ∧
      ((∃ j ∈ (getNode s top).succ,
          (getNode s j).instr.address = (getNode s n).instr.address) →
        aux_cfg_insert s c n = some { s with stack := rest })) ∧
    (s.stack = [] →
      aux_cfg_insert s c n = some (grow_append s c n) ∧
      (getNode (grow_append s c n) c).succ = (getNode s c).succ ++ [n]) ∧
    (∀ top rest, s.stack = top :: rest →
      (getNode s n).instr.address
        ≠ (getNode s top).instr.address + (getNode s top).instr.size →
      aux_cfg_insert s c n = some (grow_append s c n) ∧
      (getNode (grow_append s c n) c).succ = (getNode s c).succ ++ [n] ∧
      (grow_append s c n).stack = s.stack) := by
  refine ⟨?_, ?_, ?_⟩
  · intro top rest hst htop htopc hsize haddr
    have hct : c ≠ top := fun h => by rw [h, htopc] at htyp; cases htyp
    have hnt : n ≠ top := by
      intro h
      rw [h] at haddr
      omega
    constructor
    · intro hnew
      refine ⟨aux_ret_match_new s c n top rest htyp hst haddr hnew, ?_, ?_, ?_⟩
      · rw [grow_append_get_m { s with stack := rest } top n (by simpa using htop) hnt]
        rfl
      · by_cases hcn : c = n
        · subst hcn
          rw [grow_append_get_n { s with stack := rest } top c (by simpa using hc) hct]
          rfl
        · rw [grow_append_get_other { s with stack := rest } top n c hct hcn]
          rfl
      · exact grow_append_stack _ _ _
    · intro hdup
      exact aux_ret_match_dup s c n top rest htyp hst haddr hdup
  · intro hst
    refine ⟨aux_ret_empty s c n htyp hst, ?_⟩
    by_cases hcn : n = c
    · subst hcn
      rw [grow_append_get_self _ _ hc]
    · rw [grow_append_get_m _ _ _ hc hcn]
  · intro top rest hst haddr
    refine ⟨aux_ret_mismatch s c n top rest htyp hst haddr, ?_, grow_append_stack _ _ _⟩
    by_cases hcn : n = c
    · subst hcn
      rw [grow_append_get_self _ _ hc]
    · rw [grow_append_get_m _ _ _ hc hcn]

/-- Witness for C1 at the concrete fixture: RET current node, matching
call site on the stack, fall-through not yet a successor — the edge is
installed from the call site and the stack is popped. -/
theorem C1_ret_edge_insertion_witness :
    aux_cfg_insert wState 1 2 = some (grow_append { wState with stack := [] } 0 2) :=
  (((C1_ret_edge_insertion wState 1 2 (by decide) (by decide) (by decide)).1
    0 [] rfl (by decide) (by decide) (by decide) (by decide)).1 (by decide)).1


/-! ## The instruction index in isolation (claims about
`hashtable_insert` / `hashtable_lookup`) -/

/-- A table built by inserting every node of an allocation list, in
order, into an initially empty bucket array (what the builder does as
nodes are created). -/
def build_table (ns : List Node) : State :=
  (List.range ns.length).foldl (fun s i => hashtable_insert s i)
    { nodes := ns, buckets := fun _ => [], stack := [], roster := [], prev := 0 }

/-- Every bucket member sits in the bucket selected by its own hash. -/
def OwnBucket (s : State) : Prop :=
  ∀ b, ∀ j ∈ s.buckets b, b = bucketOf (getNode s j).instr

/-- No bucket holds two entries with the same instruction address. -/
def BucketAddrNodup (s : State) : Prop :=
  ∀ b, ((s.buckets b).map (fun j => (getNode s j).instr.address)).Nodup

theorem hashtable_insert_nodes (s : State) (idx : Nat) :
    (hashtable_insert s idx).nodes = s.nodes := by
  unfold hashtable_insert
  split <;> rfl

theorem getNode_hashtable_insert (s : State) (idx j : Nat) :
    getNode (hashtable_insert s idx) j = getNode s j := by
  unfold getNode
  rw [hashtable_insert_nodes]

/-- A same-address insert returns "present-already" without modifying
the table (trace.c:240-245). -/
theorem hashtable_insert_present (s : State) (idx k : Nat)
    (hk : k ∈ s.buckets (bucketOf (getNode s idx).instr))
    (ha : (getNode s k).instr.address = (getNode s idx).instr.address) :
    hashtable_insert s idx = s := by
  unfold hashtable_insert
  rw [if_pos]
  simp only [List.any_eq_true, decide_eq_true_eq]
  exact ⟨k, hk, ha⟩

theorem hashtable_insert_preserves_own (s : State) (idx : Nat)
    (h : OwnBucket s) : OwnBucket (hashtable_insert s idx) := by
  intro b j hj
  rw [getNode_hashtable_insert]
  unfold hashtable_insert at hj
  split at hj
  · exact h b j hj
  · simp only at hj
    by_cases hb : b = bucketOf (getNode s idx).instr
    · rw [if_pos hb] at hj
      rcases List.mem_append.mp hj with hj | hj
      · subst hb
        exact h _ j hj
      · simp only [List.mem_singleton] at hj
        subst hj
        exact hb
    · rw [if_neg hb] at hj
      exact h b j hj

theorem hashtable_insert_preserves_nodup (s : State) (idx : Nat)
    (h : BucketAddrNodup s) : BucketAddrNodup (hashtable_insert s idx) := by
  intro b
  simp only [getNode_hashtable_insert]
  unfold hashtable_insert
  split
  · exact h b
  · rename_i hany
    simp only
    by_cases hb : b = bucketOf (getNode s idx).instr
    · rw [if_pos hb, List.map_append]
      apply List.Nodup.append
      · subst hb
        exact h _
      · exact List.nodup_singleton _
      · intro a ha ha2
        simp only [List.map_singleton, List.mem_singleton] at ha2
        subst ha2
        subst hb
        rcases List.mem_map.mp ha with ⟨j, hj, hja⟩
        exact hany (List.any_eq_true.mpr ⟨j, hj, decide_eq_true hja⟩)
    · rw [if_neg hb]
      exact h b

theorem foldl_insert_own (l : List Nat) (s : State) (h : OwnBucket s) :
    OwnBucket (l.foldl (fun s i => hashtable_insert s i) s) := by
  induction l generalizing s with
  | nil => exact h
  | cons i t ih => exact ih _ (hashtable_insert_preserves_own _ _ h)

theorem foldl_insert_nodup (l : List Nat) (s : State) (h : BucketAddrNodup s) :
    BucketAddrNodup (l.foldl (fun s i => hashtable_insert s i) s) := by
  induction l generalizing s with
  | nil => exact h
  | cons i t ih => exact ih _ (hashtable_insert_preserves_nodup _ _ h)

theorem build_table_own (ns : List Node) : OwnBucket (build_table ns) := by
  apply foldl_insert_own
  intro b j hj
  simp at hj

theorem build_table_nodup (ns : List Node) : BucketAddrNodup (build_table ns) := by
  apply foldl_insert_nodup
  intro b
  simp

theorem find?_eq_some_of_mem_unique {α : Type} {p : α → Bool} {l : List α} {a : α}
    (ha : a ∈ l) (hpa : p a = true) (huniq : ∀ b ∈ l, p b = true → b = a) :
    l.find? p = some a := by
  induction l with
  | nil => cases ha
  | cons x xs ih =>
      by_cases hx : p x = true
      · rw [List.find?_cons_of_pos _ hx]
        rw [huniq x (List.mem_cons_self x xs) hx]
      · rw [List.find?_cons_of_neg _ hx]
        rcases List.mem_cons.mp ha with rfl | ha'
        · exact absurd hpa hx
        · exact ih ha' (fun b hb hpb => huniq b (List.mem_cons_of_mem _ hb) hpb)

/-- Lookup finds a bucket member through its own instruction, in any
table where members sit in their hash bucket and bucket addresses are
unique. -/
theorem hashtable_lookup_of_mem (s : State) (b j : Nat)
    (hown : OwnBucket s) (hnd : BucketAddrNodup s) (hj : j ∈ s.buckets b) :
    hashtable_lookup s (getNode s j).instr = some j := by
  have hb : b = bucketOf (getNode s j).instr := hown b j hj
  subst hb
  unfold hashtable_lookup
  apply find?_eq_some_of_mem_unique hj (by simp)
  intro k hk hpk
  simp only [decide_eq_true_eq] at hpk
  exact List.inj_on_of_nodup_map (hnd _) hk hj hpk


/-- C9: for every node `n` stored in the index, looking up `n`'s
instruction returns `n`: insertion never stores two nodes with the same
address in one bucket (a same-address insert returns "present-already"
without modifying the table), and lookup scans the bucket selected by
`hash(opcodes, address)` matching by address only. -/
theorem C9_lookup_returns_stored_node :
    (∀ ns b j, j ∈ (build_table ns).buckets b →
      hashtable_lookup (build_table ns) (getNode (build_table ns) j).instr = some j) ∧
    (∀ ns b, (((build_table ns).buckets b).map
      (fun j => (getNode (build_table ns) j).instr.address)).Nodup) ∧
    (∀ s idx k, k ∈ s.buckets (bucketOf (getNode s idx).instr) →
      (getNode s k).instr.address = (getNode s idx).instr.address →
      hashtable_insert s idx = s) :=
  ⟨fun ns b j hj =>
      hashtable_lookup_of_mem _ b j (build_table_own ns) (build_table_nodup ns) hj,
    fun ns => build_table_nodup ns,
    hashtable_insert_present⟩

/-- Witness for C9: in the table holding the two fixture nodes, looking
up the first node's instruction returns that node. -/
theorem C9_lookup_returns_stored_node_witness :
    hashtable_lookup (build_table [wCall, wRet])
      (getNode (build_table [wCall, wRet]) 0).instr = some 0 :=
  C9_lookup_returns_stored_node.1 [wCall, wRet] (bucketOf wCall.instr) 0 (by decide)


/-! ## Case analysis of `aux_cfg_insert`

Every control path of trace.c:506-596 results in one of five state
shapes; coarse preservation facts follow. -/

theorem aux_basic_noop (s : State) (c n : Nat)
    (htyp : (getNode s c).instr.typ = BASIC) (hsucc : (getNode s c).succ ≠ [])
    (hout : (getNode s c).nb_out < 1) :
    aux_cfg_insert s c n = some s := by
  simp [aux_cfg_insert, htyp, hsucc, Nat.not_le_of_lt hout]

theorem aux_shape (s : State) (c n : Nat) :
    aux_cfg_insert s c n = none ∨
    aux_cfg_insert s c n = some (add_edge s c n) ∨
    aux_cfg_insert s c n = some s ∨
    aux_cfg_insert s c n = some (grow_append s c n) ∨
    (∃ top rest, s.stack = top :: rest ∧
      (aux_cfg_insert s c n = some { s with stack := rest } ∨
       aux_cfg_insert s c n = some (grow_append { s with stack := rest } top n))) := by
  by_cases htyp : (getNode s c).instr.typ = RET
  · cases hst : s.stack with
    | nil =>
        exact Or.inr (Or.inr (Or.inr (Or.inl (aux_ret_empty s c n htyp hst))))
    | cons top rest =>
        by_cases haddr : (getNode s n).instr.address
            = (getNode s top).instr.address + (getNode s top).instr.size
        · by_cases hdup : ∃ j ∈ (getNode s top).succ,
              (getNode s j).instr.address = (getNode s n).instr.address
          · exact Or.inr (Or.inr (Or.inr (Or.inr ⟨top, rest, rfl,
              Or.inl (aux_ret_match_dup s c n top rest htyp hst haddr hdup)⟩)))
          · push_neg at hdup
            exact Or.inr (Or.inr (Or.inr (Or.inr ⟨top, rest, rfl,
              Or.inr (aux_ret_match_new s c n top rest htyp hst haddr hdup)⟩)))
        · exact Or.inr (Or.inr (Or.inr (Or.inl
            (aux_ret_mismatch s c n top rest htyp hst haddr))))
  · by_cases hsucc : (getNode s c).succ = []
    · exact Or.inr (Or.inl (aux_first s c n htyp hsucc))
    · cases ht : (getNode s c).instr.typ with
      | BASIC =>
          by_cases hout : 1 ≤ (getNode s c).nb_out
          · exact Or.inl (aux_basic_fail s c n ht hsucc hout)
          · exact Or.inr (Or.inr (Or.inl
              (aux_basic_noop s c n ht hsucc (by omega))))
      | BRANCH =>
          by_cases hout : 2 ≤ (getNode s c).nb_out
          · exact Or.inl (aux_branch_fail s c n ht hsucc hout)
          · exact Or.inr (Or.inl (aux_branch_append s c n ht hsucc (by omega)))
      | CALL =>
          exact Or.inr (Or.inr (Or.inl (aux_call_noop s c n ht hsucc)))
      | JUMP =>
          exact Or.inr (Or.inr (Or.inr (Or.inl (aux_jump s c n ht hsucc))))
      | RET => exact absurd ht htyp

theorem getNode_set_instr (s : State) (m : Nat) (M : Node)
    (hM : M.instr = (getNode s m).instr) (j : Nat) :
    (getNode (setNode s m M) j).instr = (getNode s j).instr := by
  by_cases hj : j = m
  · subst hj
    by_cases hm : j < s.nodes.length
    · rw [getNode_setNode_self _ _ _ hm, hM]
    · unfold setNode getNode
      rw [List.set_eq_of_length_le (by omega)]
  · rw [getNode_setNode_ne _ _ _ _ (fun h => hj h.symm)]

theorem add_edge_instr (s : State) (m n j : Nat) :
    (getNode (add_edge s m n) j).instr = (getNode s j).instr := by
  simp only [add_edge]
  refine (getNode_set_instr _ _ _ ?_ j).trans (getNode_set_instr _ _ _ ?_ j) <;> rfl

theorem grow_append_instr (s : State) (m n j : Nat) :
    (getNode (grow_append s m n) j).instr = (getNode s j).instr := by
  simp only [grow_append]
  refine (add_edge_instr _ _ _ _).trans (getNode_set_instr _ _ _ ?_ j)
  split <;> rfl

theorem aux_nodes_length {s : State} {c n : Nat} {s1 : State}
    (h : aux_cfg_insert s c n = some s1) : s1.nodes.length = s.nodes.length := by
  rcases aux_shape s c n with h0 | h0 | h0 | h0 | ⟨top, rest, hst, h0 | h0⟩ <;>
    rw [h0] at h
  · cases h
  · cases h
    exact add_edge_length s c n
  · cases h
    rfl
  · cases h
    exact grow_append_length s c n
  · cases h
    rfl
  · cases h
    exact grow_append_length _ top n

theorem aux_instr {s : State} {c n : Nat} {s1 : State}
    (h : aux_cfg_insert s c n = some s1) (j : Nat) :
    (getNode s1 j).instr = (getNode s j).instr := by
  rcases aux_shape s c n with h0 | h0 | h0 | h0 | ⟨top, rest, hst, h0 | h0⟩ <;>
    rw [h0] at h
  · cases h
  · cases h
    exact add_edge_instr s c n j
  · cases h
    rfl
  · cases h
    exact grow_append_instr s c n j
  · cases h
    rfl
  · cases h
    exact grow_append_instr _ top n j

theorem aux_buckets {s : State} {c n : Nat} {s1 : State}
    (h : aux_cfg_insert s c n = some s1) : s1.buckets = s.buckets := by
  rcases aux_shape s c n with h0 | h0 | h0 | h0 | ⟨top, rest, hst, h0 | h0⟩ <;>
    rw [h0] at h
  · cases h
  · cases h
    exact add_edge_buckets s c n
  · cases h
    rfl
  · cases h
    exact grow_append_buckets s c n
  · cases h
    rfl
  · cases h
    exact grow_append_buckets _ top n

theorem aux_roster {s : State} {c n : Nat} {s1 : State}
    (h : aux_cfg_insert s c n = some s1) : s1.roster = s.roster := by
  rcases aux_shape s c n with h0 | h0 | h0 | h0 | ⟨top, rest, hst, h0 | h0⟩ <;>
    rw [h0] at h
  · cases h
  · cases h
    exact add_edge_roster s c n
  · cases h
    rfl
  · cases h
    exact grow_append_roster s c n
  · cases h
    rfl
  · cases h
    exact grow_append_roster _ top n


/-! ## Lookup stability lemmas -/

theorem getNode_nodes_append_lt (s : State) (node : Node) (j : Nat)
    (hj : j < s.nodes.length) :
    getNode { s with nodes := s.nodes ++ [node] } j = getNode s j := by
  unfold getNode
  simp only [List.getD_eq_getElem?_getD]
  rw [List.getElem?_append_left hj]

theorem getNode_nodes_append_self (s : State) (node : Node) :
    getNode { s with nodes := s.nodes ++ [node] } s.nodes.length = node := by
  unfold getNode
  simp [List.getD_eq_getElem?_getD]

theorem hashtable_insert_stack (s : State) (idx : Nat) :
    (hashtable_insert s idx).stack = s.stack := by
  unfold hashtable_insert
  split <;> rfl

theorem hashtable_insert_roster (s : State) (idx : Nat) :
    (hashtable_insert s idx).roster = s.roster := by
  unfold hashtable_insert
  split <;> rfl

theorem find?_append_of_none {α : Type} {p : α → Bool} {l1 l2 : List α}
    (h : l1.find? p = none) : (l1 ++ l2).find? p = l2.find? p := by
  induction l1 with
  | nil => rfl
  | cons x xs ih =>
      rw [List.find?_eq_none] at h
      have hx : ¬ p x = true := h x (List.mem_cons_self x xs)
      rw [List.cons_append, List.find?_cons_of_neg _ hx]
      exact ih (List.find?_eq_none.mpr (fun y hy => h y (List.mem_cons_of_mem _ hy)))

/-- Lookup only reads the buckets and the addresses behind the stored
pointers. -/
theorem hashtable_lookup_congr (s' s : State) (ins : Instr)
    (hb : s'.buckets = s.buckets)
    (ha : ∀ j, (getNode s' j).instr.address = (getNode s j).instr.address) :
    hashtable_lookup s' ins = hashtable_lookup s ins := by
  unfold hashtable_lookup
  rw [hb]
  congr 1
  funext j
  rw [ha j]

theorem cfg_new_nodes (s : State) (ins : Instr) :
    (cfg_new s ins).1.nodes = s.nodes ++ [mkNode ins] := by
  unfold cfg_new
  rw [hashtable_insert_nodes]

theorem cfg_new_stack (s : State) (ins : Instr) :
    (cfg_new s ins).1.stack = s.stack := by
  unfold cfg_new
  rw [hashtable_insert_stack]

theorem cfg_new_roster (s : State) (ins : Instr) :
    (cfg_new s ins).1.roster = s.roster := by
  unfold cfg_new
  rw [hashtable_insert_roster]

theorem cfg_new_getNode_lt (s : State) (ins : Instr) (j : Nat) (hj : j < s.nodes.length) :
    getNode (cfg_new s ins).1 j = getNode s j := by
  unfold cfg_new
  rw [getNode_hashtable_insert]
  exact getNode_nodes_append_lt s (mkNode ins) j hj

theorem cfg_new_getNode_self (s : State) (ins : Instr) :
    getNode (cfg_new s ins).1 s.nodes.length = mkNode ins := by
  unfold cfg_new
  rw [getNode_hashtable_insert]
  exact getNode_nodes_append_self s (mkNode ins)



/-- After a miss and a `cfg_new`, looking the instruction up again finds
the fresh node (the hashtable insert cannot hit the "present-already"
path, because the miss already scanned the same bucket with the same
predicate). -/
theorem cfg_new_lookup (s : State) (ins : Instr)
    (hlu : hashtable_lookup s ins = none)
    (hbv : ∀ b, ∀ j ∈ s.buckets b, j < s.nodes.length) :
    hashtable_lookup (cfg_new s ins).1 ins = some s.nodes.length := by
  have hmiss : ∀ j ∈ s.buckets (bucketOf ins),
      (getNode s j).instr.address ≠ ins.address := by
    intro j hj
    have := List.find?_eq_none.mp hlu j hj
    simpa using this
  have hs1 : ∀ j ∈ s.buckets (bucketOf ins),
      getNode { s with nodes := s.nodes ++ [mkNode ins] } j = getNode s j :=
    fun j hj => getNode_nodes_append_lt s (mkNode ins) j (hbv _ j hj)
  have haddr : (getNode { s with nodes := s.nodes ++ [mkNode ins] }
      s.nodes.length).instr = ins := by
    rw [getNode_nodes_append_self]
    rfl
  have hbuck : (cfg_new s ins).1.buckets (bucketOf ins)
      = s.buckets (bucketOf ins) ++ [s.nodes.length] := by
    unfold cfg_new hashtable_insert
    dsimp only
    rw [if_neg]
    · dsimp only
      rw [haddr, if_pos rfl]
    · simp only [haddr, List.any_eq_true, decide_eq_true_eq]
      rintro ⟨j, hj, hja⟩
      rw [hs1 j hj] at hja
      exact hmiss j hj hja
  unfold hashtable_lookup
  rw [hbuck]
  have hpred : ∀ j, (getNode (cfg_new s ins).1 j).instr.address
      = (getNode { s with nodes := s.nodes ++ [mkNode ins] } j).instr.address := by
    intro j
    unfold cfg_new
    rw [getNode_hashtable_insert]
  simp only [hpred]
  rw [find?_append_of_none]
  · simp [List.find?, haddr]
  · rw [List.find?_eq_none]
    intro j hj
    simp only [decide_eq_true_eq]
    rw [hs1 j hj]
    exact hmiss j hj



theorem add_edge_succ_at (s : State) (c r : Nat) (hc : c < s.nodes.length) :
    (getNode (add_edge s c r) c).succ = (getNode s c).succ ++ [r] := by
  by_cases hrc : r = c
  · subst hrc
    simp [add_edge_get_self _ _ hc]
  · simp [add_edge_get_m _ _ _ hc hrc]

theorem grow_append_succ_at (s : State) (c r : Nat) (hc : c < s.nodes.length) :
    (getNode (grow_append s c r) c).succ = (getNode s c).succ ++ [r] := by
  by_cases hrc : r = c
  · subst hrc
    simp [grow_append_get_self _ _ hc]
  · simp [grow_append_get_m _ _ _ hc hrc]

theorem aux_lookup {s : State} {c n : Nat} {s1 : State}
    (h : aux_cfg_insert s c n = some s1) (ins : Instr) :
    hashtable_lookup s1 ins = hashtable_lookup s ins :=
  hashtable_lookup_congr s1 s ins (aux_buckets h) (fun j => by rw [aux_instr h j])

/-- After a successful `aux_cfg_insert` from a non-RET parent, the
resulting state is in one of three shapes that make a repetition of the
same insertion a graph no-op. -/
theorem aux_nonret_facts (sA : State) (c n : Nat) (s3 : State)
    (hc : c < sA.nodes.length) (htyp : (getNode sA c).instr.typ ≠ RET)
    (h : aux_cfg_insert sA c n = some s3) :
    (∃ j ∈ (getNode s3 c).succ,
      (getNode s3 j).instr.address = (getNode s3 n).instr.address)
    ∨ ((getNode s3 c).instr.typ = CALL ∧ (getNode s3 c).succ ≠ [])
    ∨ ((getNode s3 c).instr.typ = BASIC ∧ (getNode s3 c).succ ≠ []
        ∧ (getNode s3 c).nb_out < 1) := by
  by_cases hsucc : (getNode sA c).succ = []
  · rw [aux_first sA c n htyp hsucc] at h
    cases h
    left
    refine ⟨n, ?_, rfl⟩
    rw [add_edge_succ_at sA c n hc, hsucc]
    simp
  · cases ht : (getNode sA c).instr.typ with
    | BASIC =>
        by_cases hout : 1 ≤ (getNode sA c).nb_out
        · rw [aux_basic_fail sA c n ht hsucc hout] at h
          cases h
        · rw [aux_basic_noop sA c n ht hsucc (by omega)] at h
          cases h
          right; right
          exact ⟨ht, hsucc, by omega⟩
    | BRANCH =>
        by_cases hout : 2 ≤ (getNode sA c).nb_out
        · rw [aux_branch_fail sA c n ht hsucc hout] at h
          cases h
        · rw [aux_branch_append sA c n ht hsucc (by omega)] at h
          cases h
          left
          refine ⟨n, ?_, rfl⟩
          rw [add_edge_succ_at sA c n hc]
          simp
    | CALL =>
        rw [aux_call_noop sA c n ht hsucc] at h
        cases h
        right; left
        exact ⟨ht, hsucc⟩
    | JUMP =>
        rw [aux_jump sA c n ht hsucc] at h
        cases h
        left
        refine ⟨n, ?_, rfl⟩
        rw [grow_append_succ_at sA c n hc]
        simp
    | RET => exact absurd ht htyp



/-- Second insertion of the same instruction after the same (non-RET
shaped) predecessor: the graph (the node list) and the roster do not
change. -/
theorem cfg_insert_again (s1 : State) (c : Nat) (ins : Instr) (r : Nat)
    (hlu1 : hashtable_lookup s1 ins = some r)
    (hcase :
      (∃ j ∈ (getNode s1 c).succ,
        (getNode s1 j).instr.address = (getNode s1 r).instr.address)
      ∨ ((getNode s1 c).instr.typ = CALL ∧ (getNode s1 c).succ ≠ [])
      ∨ ((getNode s1 c).instr.typ = BASIC ∧ (getNode s1 c).succ ≠ []
          ∧ (getNode s1 c).nb_out < 1)) :
    ∃ s2, cfg_insert s1 c ins = some (s2, r) ∧ s2.nodes = s1.nodes
      ∧ s2.roster = s1.roster := by
  unfold cfg_insert
  rw [hlu1]
  simp only
  have hget : ∀ x, getNode (if (getNode s1 c).instr.typ = CALL
      then { s1 with stack := stack_push s1.stack c } else s1) x = getNode s1 x := by
    intro x
    split <;> rfl
  by_cases hdup : ∃ j ∈ (getNode s1 c).succ,
      (getNode s1 j).instr.address = (getNode s1 r).instr.address
  · rw [if_pos]
    · refine ⟨_, rfl, ?_, ?_⟩ <;> split <;> rfl
    · simp only [hget, List.any_eq_true, decide_eq_true_eq]
      exact hdup
  · rw [if_neg]
    · rcases hcase with hcase | ⟨htc, hsc⟩ | ⟨htc, hsc, hoc⟩
      · exact absurd hcase hdup
      · rw [aux_call_noop _ c r (by rw [hget]; exact htc) (by rw [hget]; exact hsc)]
        refine ⟨_, rfl, ?_, ?_⟩ <;> split <;> rfl
      · rw [aux_basic_noop _ c r (by rw [hget]; exact htc) (by rw [hget]; exact hsc)
          (by rw [hget]; exact hoc)]
        refine ⟨_, rfl, ?_, ?_⟩ <;> split <;> rfl
    · simp only [hget, List.any_eq_true, decide_eq_true_eq]
      exact hdup



/-- First successful insertion after a non-RET predecessor: the
instruction is afterwards in the index under the returned node, and the
state has one of the three repetition-noop shapes. -/
theorem cfg_insert_first_facts (s : State) (c : Nat) (ins : Instr) (s1 : State) (r : Nat)
    (hc : c < s.nodes.length)
    (htyp : (getNode s c).instr.typ ≠ RET)
    (hbv : ∀ b, ∀ j ∈ s.buckets b, j < s.nodes.length)
    (h : cfg_insert s c ins = some (s1, r)) :
    hashtable_lookup s1 ins = some r ∧
    ((∃ j ∈ (getNode s1 c).succ,
        (getNode s1 j).instr.address = (getNode s1 r).instr.address)
      ∨ ((getNode s1 c).instr.typ = CALL ∧ (getNode s1 c).succ ≠ [])
      ∨ ((getNode s1 c).instr.typ = BASIC ∧ (getNode s1 c).succ ≠ []
          ∧ (getNode s1 c).nb_out < 1)) := by
  unfold cfg_insert at h
  cases hlu : hashtable_lookup s ins with
  | none =>
      rw [hlu] at h
      simp only at h
      -- name the intermediate states
      set sN := (cfg_new s ins).1 with hsN
      have hnew : (cfg_new s ins).2 = s.nodes.length := rfl
      rw [hnew] at h
      set sP := if (getNode sN c).instr.typ = CALL
        then { sN with roster := sN.roster ++ [s.nodes.length], stack := stack_push sN.stack c }
        else sN with hsP
      have hgetP : ∀ x, getNode sP x = getNode sN x := by
        intro x
        rw [hsP]
        split <;> rfl
      have hlookP : ∀ i, hashtable_lookup sP i = hashtable_lookup sN i := by
        intro i
        apply hashtable_lookup_congr
        · rw [hsP]; split <;> rfl
        · intro j; rw [hgetP]
      cases haux : aux_cfg_insert sP c s.nodes.length with
      | none => rw [haux] at h; cases h
      | some s3 =>
          rw [haux] at h
          simp only [Option.map_some', Option.some.injEq, Prod.mk.injEq] at h
          obtain ⟨h1, h2⟩ := h
          subst h1
          subst h2
          have hcP : c < sP.nodes.length := by
            have : sP.nodes.length = s.nodes.length + 1 := by
              rw [hsP]
              have : sN.nodes.length = s.nodes.length + 1 := by
                rw [hsN, cfg_new_nodes]
                simp
              split <;> simpa using this
            omega
          constructor
          · rw [aux_lookup haux ins, hlookP, hsN, cfg_new_lookup s ins hlu hbv]
          · apply aux_nonret_facts sP c s.nodes.length s3 hcP _ haux
            rw [hgetP, hsN, cfg_new_getNode_lt s ins c hc]
            exact htyp
  | some found =>
      rw [hlu] at h
      simp only at h
      set sP := if (getNode s c).instr.typ = CALL
        then { s with stack := stack_push s.stack c } else s with hsP
      have hgetP : ∀ x, getNode sP x = getNode s x := by
        intro x
        rw [hsP]
        split <;> rfl
      have hlookP : ∀ i, hashtable_lookup sP i = hashtable_lookup s i := by
        intro i
        apply hashtable_lookup_congr
        · rw [hsP]; split <;> rfl
        · intro j; rw [hgetP]
      by_cases hdup : ((getNode sP c).succ.any
          (fun j => decide ((getNode sP j).instr.address = (getNode sP found).instr.address))) = true
      · rw [if_pos hdup] at h
        simp only [Option.some.injEq, Prod.mk.injEq] at h
        obtain ⟨h1, h2⟩ := h
        subst h1
        subst h2
        constructor
        · rw [hlookP]; exact hlu
        · left
          simpa only [List.any_eq_true, decide_eq_true_eq] using hdup
      · rw [if_neg hdup] at h
        cases haux : aux_cfg_insert sP c found with
        | none => rw [haux] at h; cases h
        | some s3 =>
            rw [haux] at h
            simp only [Option.map_some', Option.some.injEq, Prod.mk.injEq] at h
            obtain ⟨h1, h2⟩ := h
            subst h1
            subst h2
            have hcP : c < sP.nodes.length := by
              have : sP.nodes.length = s.nodes.length := by rw [hsP]; split <;> rfl
              omega
            constructor
            · rw [aux_lookup haux ins, hlookP]; exact hlu
            · apply aux_nonret_facts sP c found s3 hcP _ haux
              rw [hgetP]
              exact htyp


set_option maxHeartbeats 1000000 in
/-- C6 counterexample: the claim's final sentence — "repeating the same
(ip, size, bytes) observation after the same predecessor is idempotent
on the graph" — fails when the predecessor is a RET.  Trace: CALL at
100 (size 2), RET at 200, fall-through 102 (stack top matches, edge
goes to the call site 100), back to 200, then 102 again.  Both the 3rd
and the 5th observation present (102, 1, [0x90]) right after the node
at address 200 (`prev = 1` in both prior states), yet the repeat
installs a fresh edge from the RET node: its `nb_out` goes 0 to 1 and
the in-degree of node 102 goes 1 to 2. -/
theorem C6_repeat_after_ret_not_idempotent :
    ((run [⟨100, 2, [0xE8, 0, 0]⟩, ⟨200, 1, [0xC3, 0, 0]⟩, ⟨102, 1, [0x90, 0, 0]⟩,
        ⟨200, 1, [0xC3, 0, 0]⟩]).map
      (fun s => (s.prev, (getNode s 1).instr.address, (getNode s 1).nb_out,
        (getNode s 2).nb_in)) = some (1, 200, 0, 1)) ∧
    ((run [⟨100, 2, [0xE8, 0, 0]⟩, ⟨200, 1, [0xC3, 0, 0]⟩, ⟨102, 1, [0x90, 0, 0]⟩,
        ⟨200, 1, [0xC3, 0, 0]⟩, ⟨102, 1, [0x90, 0, 0]⟩]).map
      (fun s => ((getNode s 1).nb_out, (getNode s 2).nb_in)) = some (1, 2)) ∧
    ((run [⟨100, 2, [0xE8, 0, 0]⟩, ⟨200, 1, [0xC3, 0, 0]⟩]).map
      (fun s => s.prev) = some 1) := by
  refine ⟨?_, ?_, ?_⟩ <;> decide

/-- C6 (amended): observing an instruction that is already in the index
never creates a new node, and when the specific edge from the current
predecessor `P` to the found node `N` was already installed, the
insertion returns without increasing any out_degree; repeating the same
(ip, size, bytes) observation after the same predecessor is idempotent
on the graph provided the predecessor's type is not RET (a RET
predecessor whose shadow-stack top matched installs the edge from the
call site, and a later repeat with a changed stack can install a second
edge from the RET node itself, as the counterexample shows). -/
theorem C6_insertion_idempotence :
    (∀ s c ins found s1 r, hashtable_lookup s ins = some found →
      cfg_insert s c ins = some (s1, r) →
      s1.nodes.length = s.nodes.length ∧ r = found) ∧
    (∀ s c ins found, hashtable_lookup s ins = some found →
      (∃ j ∈ (getNode s c).succ,
        (getNode s j).instr.address = (getNode s found).instr.address) →
      ∃ s1, cfg_insert s c ins = some (s1, found) ∧ s1.nodes = s.nodes
        ∧ s1.roster = s.roster) ∧
    (∀ s c ins s1 r, c < s.nodes.length →
      (getNode s c).instr.typ ≠ RET →
      (∀ b, ∀ j ∈ s.buckets b, j < s.nodes.length) →
      cfg_insert s c ins = some (s1, r) →
      ∃ s2, cfg_insert s1 c ins = some (s2, r) ∧ s2.nodes = s1.nodes
        ∧ s2.roster = s1.roster) := by
  refine ⟨?_, ?_, ?_⟩
  · intro s c ins found s1 r hlu h
    unfold cfg_insert at h
    rw [hlu] at h
    simp only at h
    set sP := if (getNode s c).instr.typ = CALL
      then { s with stack := stack_push s.stack c } else s with hsP
    have hlen : sP.nodes.length = s.nodes.length := by rw [hsP]; split <;> rfl
    split at h
    · simp only [Option.some.injEq, Prod.mk.injEq] at h
      obtain ⟨h1, h2⟩ := h
      subst h1
      subst h2
      exact ⟨hlen, rfl⟩
    · cases haux : aux_cfg_insert sP c found with
      | none => rw [haux] at h; cases h
      | some s3 =>
          rw [haux] at h
          simp only [Option.map_some', Option.some.injEq, Prod.mk.injEq] at h
          obtain ⟨h1, h2⟩ := h
          subst h1
          subst h2
          exact ⟨(aux_nodes_length haux).trans hlen, rfl⟩
  · intro s c ins found hlu hdup
    unfold cfg_insert
    rw [hlu]
    simp only
    have hget : ∀ x, getNode (if (getNode s c).instr.typ = CALL
        then { s with stack := stack_push s.stack c } else s) x = getNode s x := by
      intro x
      split <;> rfl
    rw [if_pos]
    · refine ⟨_, rfl, ?_, ?_⟩ <;> split <;> rfl
    · simp only [hget, List.any_eq_true, decide_eq_true_eq]
      exact hdup
  · intro s c ins s1 r hc htyp hbv h
    obtain ⟨hlu1, hcase⟩ := cfg_insert_first_facts s c ins s1 r hc htyp hbv h
    exact cfg_insert_again s1 c ins r hlu1 hcase

/-- Fixture for the C6 witness: a lone CALL node with no successor
yet. -/
def wCall0 : Node :=
  { instr := ⟨100, 2, [0xE8, 0x00], CALL⟩, nb_in := 0, nb_out := 0
    name := 0, succ := [], cap := 2 }

def wFirst : State :=
  { nodes := [wCall0], buckets := fun _ => [], stack := [], roster := [0], prev := 0 }

def wRetInstr : Instr := ⟨200, 1, [0xC3], RET⟩

/-- Witness for C6 at a concrete input: inserting the RET instruction
after the CALL node a second time leaves the graph and roster
unchanged. -/
theorem C6_insertion_idempotence_witness :
    ∃ s2, cfg_insert ((cfg_insert wFirst 0 wRetInstr).getD (wFirst, 0)).1 0 wRetInstr
        = some (s2, ((cfg_insert wFirst 0 wRetInstr).getD (wFirst, 0)).2) ∧
      s2.nodes = ((cfg_insert wFirst 0 wRetInstr).getD (wFirst, 0)).1.nodes ∧
      s2.roster = ((cfg_insert wFirst 0 wRetInstr).getD (wFirst, 0)).1.roster :=
  C6_insertion_idempotence.2.2 wFirst 0 wRetInstr _ _ (by decide) (by decide)
    (fun b j hj => absurd hj (List.not_mem_nil j)) (by rfl)


/-- Mathematical powers of two (including 1 = 2^0). -/
def pow2 (n : Nat) : Prop := ∃ k, n = 2 ^ k

theorem is_power_2_loop_iff : ∀ fuel n, n ≤ fuel →
    (is_power_2_loop fuel n = true ↔ 2 ≤ n ∧ pow2 n) := by
  intro fuel
  induction fuel with
  | zero =>
      intro n hn
      interval_cases n
      simp [is_power_2_loop, pow2]
  | succ fuel ih =>
      intro n hn
      match n with
      | 0 => simp [is_power_2_loop, pow2]
      | n + 1 =>
          show (if (n + 1) % 2 = 0 then
              if n + 1 = 2 then true else is_power_2_loop fuel ((n + 1) / 2)
            else false) = true ↔ _
          by_cases hev : (n + 1) % 2 = 0
          · rw [if_pos hev]
            by_cases h2 : n + 1 = 2
            · rw [if_pos h2, h2]
              simp only [true_iff, iff_true]
              exact ⟨by omega, 1, rfl⟩
            · rw [if_neg h2]
              rw [ih ((n + 1) / 2) (by omega)]
              constructor
              · rintro ⟨hge, k, hk⟩
                refine ⟨by omega, k + 1, ?_⟩
                rw [pow_succ, ← hk]
                omega
              · rintro ⟨hge, k, hk⟩
                have hk2 : 2 ≤ k := by
                  by_contra hlt
                  interval_cases k <;> omega
                have hkk : k = (k - 1) + 1 := by omega
                have h1 : n + 1 = 2 ^ (k - 1) * 2 := by
                  rw [hk]
                  conv_lhs => rw [hkk]
                  rw [pow_succ]
                have h2 : 2 ≤ 2 ^ (k - 1) := by
                  calc 2 = 2 ^ 1 := rfl
                  _ ≤ 2 ^ (k - 1) := Nat.pow_le_pow_right (by omega) (by omega)
                exact ⟨by omega, k - 1, by omega⟩
          · rw [if_neg hev]
            simp only [false_iff, Bool.false_eq_true, false_iff]
            rintro ⟨hge, k, hk⟩
            have hk1 : 1 ≤ k := by
              by_contra hlt
              interval_cases k <;> omega
            have hkk : k = (k - 1) + 1 := by omega
            have h1 : n + 1 = 2 ^ (k - 1) * 2 := by
              rw [hk]
              conv_lhs => rw [hkk]
              rw [pow_succ]
            omega

theorem is_power_2_iff (n : Nat) : is_power_2 n = true ↔ 2 ≤ n ∧ pow2 n :=
  is_power_2_loop_iff n n (Nat.le_refl n)

theorem is_power_2_false (n : Nat) (h : ¬ (2 ≤ n ∧ pow2 n)) : is_power_2 n = false := by
  rw [← Bool.not_eq_true, is_power_2_iff]
  exact h



/-- The in-degree count: the number of distinct nodes `m` whose
successor array contains `n`. -/
def inCount (s : State) (n : Nat) : Nat :=
  ((Finset.range s.nodes.length).filter (fun m => n ∈ (getNode s m).succ)).card

/-- The builder invariant over the nodes, buckets, stack and roster of a
state reached from observations drawn from the stream `l`. -/
structure NodeInv (l : List Obs) (s : State) : Prop where
  node_obs : ∀ j, j < s.nodes.length → ∃ o, o ∈ l ∧ (getNode s j).instr = mkInstr o
  registered : ∀ j, j < s.nodes.length → j ∈ s.buckets (bucketOf (getNode s j).instr)
  buckets_lt : ∀ b, ∀ j ∈ s.buckets b, j < s.nodes.length
  succ_lt : ∀ i, i < s.nodes.length → ∀ j ∈ (getNode s i).succ, j < s.nodes.length
  succ_addr_nodup : ∀ i, i < s.nodes.length →
    ((getNode s i).succ.map (fun j => (getNode s j).instr.address)).Nodup
  len_out : ∀ i, i < s.nodes.length → (getNode s i).succ.length = (getNode s i).nb_out
  indeg : ∀ n, n < s.nodes.length → (getNode s n).nb_in = inCount s n
  basic_cap : ∀ i, i < s.nodes.length → (getNode s i).instr.typ = BASIC →
    (getNode s i).cap = 1 ∧ (getNode s i).nb_out ≤ 1
  other_cap : ∀ i, i < s.nodes.length → (getNode s i).instr.typ ≠ BASIC →
    2 ≤ (getNode s i).cap ∧ pow2 (getNode s i).cap
      ∧ (getNode s i).nb_out ≤ (getNode s i).cap
      ∧ (getNode s i).cap ≤ 2 * max (getNode s i).nb_out 1
  branch_out : ∀ i, i < s.nodes.length → (getNode s i).instr.typ = BRANCH →
    (getNode s i).nb_out ≤ 2
  stack_inv : ∀ t ∈ s.stack, t < s.nodes.length ∧ (getNode s t).instr.typ = CALL

/-- The edge installer `add_edge` preserves the invariant, given the
preconditions each call site of the source establishes. -/
theorem add_edge_inv {l : List Obs} {s : State} (m n : Nat)
    (hI : NodeInv l s)
    (hm : m < s.nodes.length) (hn : n < s.nodes.length)
    (hfresh : ∀ j ∈ (getNode s m).succ,
      (getNode s j).instr.address ≠ (getNode s n).instr.address)
    (hcap : (getNode s m).nb_out + 1 ≤ (getNode s m).cap)
    (hbasic : (getNode s m).instr.typ = BASIC → (getNode s m).nb_out = 0)
    (hbranch : (getNode s m).instr.typ = BRANCH → (getNode s m).nb_out ≤ 1) :
    NodeInv l (add_edge s m n) := by
  have hlen := add_edge_length s m n
  have hinstr := add_edge_instr s m n
  have hnm : n ∉ (getNode s m).succ := by
    intro hmem
    exact hfresh n hmem rfl
  -- field description of every node after the edge write
  have hsucc_m : (getNode (add_edge s m n) m).succ = (getNode s m).succ ++ [n] :=
    add_edge_succ_at s m n hm
  have hout_m : (getNode (add_edge s m n) m).nb_out = (getNode s m).nb_out + 1 := by
    by_cases hmn : n = m
    · subst hmn
      rw [add_edge_get_self _ _ hm]
    · rw [add_edge_get_m _ _ _ hm hmn]
  have hcap_m : (getNode (add_edge s m n) m).cap = (getNode s m).cap := by
    by_cases hmn : n = m
    · subst hmn
      rw [add_edge_get_self _ _ hm]
    · rw [add_edge_get_m _ _ _ hm hmn]
  have hin_n : (getNode (add_edge s m n) n).nb_in = (getNode s n).nb_in + 1 := by
    by_cases hmn : n = m
    · subst hmn
      rw [add_edge_get_self _ _ hm]
    · rw [add_edge_get_n _ _ _ hn hmn]
  have hother : ∀ j, j ≠ m → j ≠ n → getNode (add_edge s m n) j = getNode s j :=
    fun j h1 h2 => add_edge_get_other s m n j h1 h2
  have hsucc_j : ∀ j, j ≠ m → (getNode (add_edge s m n) j).succ = (getNode s j).succ := by
    intro j h1
    by_cases h2 : j = n
    · subst h2
      rw [add_edge_get_n _ _ _ hn h1]
    · rw [hother j h1 h2]
  have hout_j : ∀ j, j ≠ m → (getNode (add_edge s m n) j).nb_out = (getNode s j).nb_out := by
    intro j h1
    by_cases h2 : j = n
    · subst h2
      rw [add_edge_get_n _ _ _ hn h1]
    · rw [hother j h1 h2]
  have hcap_j : ∀ j, j ≠ m → (getNode (add_edge s m n) j).cap = (getNode s j).cap := by
    intro j h1
    by_cases h2 : j = n
    · subst h2
      rw [add_edge_get_n _ _ _ hn h1]
    · rw [hother j h1 h2]
  have hin_j : ∀ j, j ≠ n → (getNode (add_edge s m n) j).nb_in = (getNode s j).nb_in := by
    intro j h2
    by_cases h1 : j = m
    · subst h1
      by_cases hmn : n = j
      · exact absurd hmn.symm h2
      · rw [add_edge_get_m _ _ _ hm hmn]
    · rw [hother j h1 h2]
  -- membership in a successor array after the write
  have hmem_iff : ∀ q k, k ≠ m →
      (q ∈ (getNode (add_edge s m n) k).succ ↔ q ∈ (getNode s k).succ) := by
    intro q k hk
    rw [hsucc_j k hk]
  have hmem_m : ∀ q, q ≠ n →
      (q ∈ (getNode (add_edge s m n) m).succ ↔ q ∈ (getNode s m).succ) := by
    intro q hq
    rw [hsucc_m]
    simp [hq]
  refine ⟨?_, ?_, ?_, ?_, ?_, ?_, ?_, ?_, ?_, ?_, ?_⟩
  · intro j hj
    rw [hlen] at hj
    rw [hinstr j]
    exact hI.node_obs j hj
  · intro j hj
    rw [hlen] at hj
    rw [hinstr j, add_edge_buckets]
    exact hI.registered j hj
  · intro b j hj
    rw [add_edge_buckets] at hj
    rw [hlen]
    exact hI.buckets_lt b j hj
  · intro i hi j hj
    rw [hlen] at hi ⊢
    by_cases him : i = m
    · subst him
      rw [hsucc_m] at hj
      rcases List.mem_append.mp hj with hj | hj
      · exact hI.succ_lt i hi j hj
      · simp only [List.mem_singleton] at hj
        subst hj
        exact hn
    · rw [hsucc_j i him] at hj
      exact hI.succ_lt i hi j hj
  · intro i hi
    rw [hlen] at hi
    have haddr : ∀ j, (getNode (add_edge s m n) j).instr.address
        = (getNode s j).instr.address := fun j => by rw [hinstr j]
    by_cases him : i = m
    · subst him
      rw [hsucc_m, List.map_append]
      simp only [List.map_singleton, haddr]
      have h1 : ((getNode s i).succ.map
          (fun j => (getNode s j).instr.address)).Nodup := hI.succ_addr_nodup i hi
      have h2 : (getNode s n).instr.address ∉
          (getNode s i).succ.map (fun j => (getNode s j).instr.address) := by
        intro hmem
        rcases List.mem_map.mp hmem with ⟨j, hjmem, hja⟩
        exact hfresh j hjmem hja
      refine List.Nodup.append ?_ (List.nodup_singleton _) ?_
      · have := h1
        simpa only [haddr] using this
      · intro a ha ha2
        simp only [List.mem_singleton] at ha2
        subst ha2
        apply h2
        simpa only [haddr] using ha
    · rw [hsucc_j i him]
      have h1 := hI.succ_addr_nodup i hi
      simpa only [haddr] using h1
  · intro i hi
    rw [hlen] at hi
    by_cases him : i = m
    · subst him
      rw [hsucc_m, hout_m, List.length_append]
      simp [hI.len_out i hi]
    · rw [hsucc_j i him, hout_j i him]
      exact hI.len_out i hi
  · intro q hq
    rw [hlen] at hq
    by_cases hqn : q = n
    · rw [hqn, hin_n, hI.indeg n hn]
      unfold inCount
      rw [hlen]
      have hset : (Finset.range s.nodes.length).filter
            (fun k => n ∈ (getNode (add_edge s m n) k).succ)
          = insert m ((Finset.range s.nodes.length).filter
            (fun k => n ∈ (getNode s k).succ)) := by
        ext k
        simp only [Finset.mem_insert, Finset.mem_filter, Finset.mem_range]
        constructor
        · rintro ⟨hk, hmem⟩
          by_cases hkm : k = m
          · exact Or.inl hkm
          · exact Or.inr ⟨hk, (hmem_iff n k hkm).mp hmem⟩
        · intro h
          rcases h with hkm | ⟨hk, hmem⟩
          · rw [hkm]
            refine ⟨hm, ?_⟩
            rw [hsucc_m]
            simp
          · by_cases hkm : k = m
            · rw [hkm] at hmem
              exact absurd hmem hnm
            · exact ⟨hk, (hmem_iff n k hkm).mpr hmem⟩
      rw [hset, Finset.card_insert_of_not_mem]
      · simp only [Finset.mem_filter, Finset.mem_range, not_and]
        intro _
        exact hnm
    · rw [hin_j q hqn, hI.indeg q hq]
      unfold inCount
      rw [hlen]
      congr 1
      ext k
      simp only [Finset.mem_filter, Finset.mem_range]
      constructor
      · rintro ⟨hk, hmem⟩
        refine ⟨hk, ?_⟩
        by_cases hkm : k = m
        · rw [hkm] at hmem ⊢
          exact (hmem_m q hqn).mpr hmem
        · exact (hmem_iff q k hkm).mpr hmem
      · rintro ⟨hk, hmem⟩
        refine ⟨hk, ?_⟩
        by_cases hkm : k = m
        · rw [hkm] at hmem ⊢
          exact (hmem_m q hqn).mp hmem
        · exact (hmem_iff q k hkm).mp hmem
  · intro i hi htyp
    rw [hlen] at hi
    rw [hinstr i] at htyp
    by_cases him : i = m
    · subst him
      rw [hcap_m, hout_m]
      have h0 := hbasic htyp
      have h1 := (hI.basic_cap i hi htyp).1
      omega
    · rw [hcap_j i him, hout_j i him]
      exact hI.basic_cap i hi htyp
  · intro i hi htyp
    rw [hlen] at hi
    rw [hinstr i] at htyp
    by_cases him : i = m
    · subst him
      rw [hcap_m, hout_m]
      obtain ⟨h1, h2, h3, h4⟩ := hI.other_cap i hi htyp
      refine ⟨h1, h2, hcap, ?_⟩
      have hmx : max (getNode s i).nb_out 1 ≤ max ((getNode s i).nb_out + 1) 1 :=
        max_le_max (Nat.le_succ _) (Nat.le_refl _)
      omega
    · rw [hcap_j i him, hout_j i him]
      exact hI.other_cap i hi htyp
  · intro i hi htyp
    rw [hlen] at hi
    rw [hinstr i] at htyp
    by_cases him : i = m
    · subst him
      rw [hout_m]
      have := hbranch htyp
      omega
    · rw [hout_j i him]
      exact hI.branch_out i hi htyp
  · intro t ht
    rw [add_edge_stack] at ht
    rw [hlen, hinstr t]
    exact hI.stack_inv t ht



/-- The JUMP/RET growth-and-append step `grow_append` preserves the
invariant for a non-BASIC, non-BRANCH parent (its call sites in
`aux_cfg_insert` are the JUMP case, the RET fallback on the RET node
itself, and the matched-RET append on the CALL site).  The growth
condition `is_power_2 (nb_out)` together with the capacity invariant
keeps the slot write within capacity. -/
theorem grow_append_inv {l : List Obs} {s : State} (m n : Nat)
    (hI : NodeInv l s)
    (hm : m < s.nodes.length) (hn : n < s.nodes.length)
    (hfresh : ∀ j ∈ (getNode s m).succ,
      (getNode s j).instr.address ≠ (getNode s n).instr.address)
    (htyp : (getNode s m).instr.typ ≠ BASIC)
    (hbr : (getNode s m).instr.typ ≠ BRANCH) :
    NodeInv l (grow_append s m n) := by
  obtain ⟨hc2, hpow, hoc1, hoc2⟩ := hI.other_cap m hm htyp
  have hgrow : grow_append s m n
      = add_edge (setNode s m (if is_power_2 (getNode s m).nb_out
          then { getNode s m with cap := 2 * (getNode s m).nb_out }
          else getNode s m)) m n := rfl
  set M1 := (if is_power_2 (getNode s m).nb_out
    then { getNode s m with cap := 2 * (getNode s m).nb_out }
    else getNode s m) with hM1
  set sC := setNode s m M1 with hsC
  have hlenC : sC.nodes.length = s.nodes.length := setNode_nodes_length s m M1
  have hgetm : getNode sC m = M1 := getNode_setNode_self s m M1 hm
  have hgetj : ∀ j, j ≠ m → getNode sC j = getNode s j :=
    fun j hj => getNode_setNode_ne s m j M1 (fun h => hj h.symm)
  have hinstrC : ∀ j, (getNode sC j).instr = (getNode s j).instr := by
    intro j
    by_cases hj : j = m
    · rw [hj, hgetm, hM1]
      split <;> rfl
    · rw [hgetj j hj]
  have hsuccC : ∀ j, (getNode sC j).succ = (getNode s j).succ := by
    intro j
    by_cases hj : j = m
    · rw [hj, hgetm, hM1]
      split <;> rfl
    · rw [hgetj j hj]
  have hinC : ∀ j, (getNode sC j).nb_in = (getNode s j).nb_in := by
    intro j
    by_cases hj : j = m
    · rw [hj, hgetm, hM1]
      split <;> rfl
    · rw [hgetj j hj]
  have houtC : ∀ j, (getNode sC j).nb_out = (getNode s j).nb_out := by
    intro j
    by_cases hj : j = m
    · rw [hj, hgetm, hM1]
      split <;> rfl
    · rw [hgetj j hj]
  have hcapC : (getNode sC m).cap = (if is_power_2 (getNode s m).nb_out
      then 2 * (getNode s m).nb_out else (getNode s m).cap) := by
    rw [hgetm, hM1]
    split <;> rfl
  have hcapCj : ∀ j, j ≠ m → (getNode sC j).cap = (getNode s j).cap :=
    fun j hj => by rw [hgetj j hj]
  have hIC : NodeInv l sC := by
    refine ⟨?_, ?_, ?_, ?_, ?_, ?_, ?_, ?_, ?_, ?_, ?_⟩
    · intro j hj
      rw [hlenC] at hj
      rw [hinstrC j]
      exact hI.node_obs j hj
    · intro j hj
      rw [hlenC] at hj
      rw [hinstrC j]
      show j ∈ s.buckets _
      exact hI.registered j hj
    · intro b j hj
      rw [hlenC]
      exact hI.buckets_lt b j hj
    · intro i hi j hj
      rw [hlenC] at hi ⊢
      rw [hsuccC i] at hj
      exact hI.succ_lt i hi j hj
    · intro i hi
      rw [hlenC] at hi
      have hfun : (fun j => (getNode sC j).instr.address)
          = (fun j => (getNode s j).instr.address) :=
        funext fun j => by rw [hinstrC j]
      rw [hsuccC i, hfun]
      exact hI.succ_addr_nodup i hi
    · intro i hi
      rw [hlenC] at hi
      rw [hsuccC i, houtC i]
      exact hI.len_out i hi
    · intro q hq
      rw [hlenC] at hq
      rw [hinC q, hI.indeg q hq]
      unfold inCount
      rw [hlenC]
      apply congrArg
      apply Finset.filter_congr
      intro k _
      rw [hsuccC k]
    · intro i hi hb
      rw [hlenC] at hi
      rw [hinstrC i] at hb
      by_cases hj : i = m
      · rw [hj] at hb
        exact absurd hb htyp
      · rw [hcapCj i hj, houtC i]
        exact hI.basic_cap i hi hb
    · intro i hi hb
      rw [hlenC] at hi
      rw [hinstrC i] at hb
      by_cases hj : i = m
      · rw [hj, houtC m, hcapC]
        by_cases hp : is_power_2 (getNode s m).nb_out = true
        · rw [if_pos hp]
          obtain ⟨ho2, k, hok⟩ := (is_power_2_iff _).mp hp
          refine ⟨by omega, ⟨k + 1, by rw [hok, pow_succ]; ring⟩, by omega, ?_⟩
          have : max (getNode s m).nb_out 1 = (getNode s m).nb_out :=
            Nat.max_eq_left (by omega)
          omega
        · rw [if_neg hp]
          exact ⟨hc2, hpow, hoc1, hoc2⟩
      · rw [hcapCj i hj, houtC i]
        exact hI.other_cap i hi hb
    · intro i hi hb
      rw [hlenC] at hi
      rw [hinstrC i] at hb
      rw [houtC i]
      exact hI.branch_out i hi hb
    · intro t ht
      have ht2 : t ∈ s.stack := ht
      rw [hlenC, hinstrC t]
      exact hI.stack_inv t ht2
  have hcap2 : (getNode sC m).nb_out + 1 ≤ (getNode sC m).cap := by
    rw [houtC m, hcapC]
    by_cases hp : is_power_2 (getNode s m).nb_out = true
    · rw [if_pos hp]
      obtain ⟨ho2, _⟩ := (is_power_2_iff _).mp hp
      omega
    · rw [if_neg hp]
      by_cases hlt : (getNode s m).nb_out < (getNode s m).cap
      · omega
      · have heq : (getNode s m).nb_out = (getNode s m).cap := by omega
        exact absurd ((is_power_2_iff _).mpr ⟨by omega, heq ▸ hpow⟩) hp
  rw [hgrow]
  exact add_edge_inv m n hIC (by omega) (by omega)
    (by
      intro j hj
      rw [hsuccC m] at hj
      rw [hinstrC j, hinstrC n]
      exact hfresh j hj)
    hcap2
    (fun h => absurd (by rw [hinstrC m] at h; exact h) htyp)
    (fun h => absurd (by rw [hinstrC m] at h; exact h) hbr)



/-- Replacing the shadow stack by a subset of itself (the pop in the
matched-RET path) preserves the invariant. -/
theorem NodeInv_stack {l : List Obs} {s : State} (st : List Nat)
    (hsub : ∀ t ∈ st, t ∈ s.stack) (hI : NodeInv l s) :
    NodeInv l { s with stack := st } :=
  { node_obs := hI.node_obs, registered := hI.registered, buckets_lt := hI.buckets_lt
    succ_lt := hI.succ_lt, succ_addr_nodup := hI.succ_addr_nodup, len_out := hI.len_out
    indeg := hI.indeg, basic_cap := hI.basic_cap, other_cap := hI.other_cap
    branch_out := hI.branch_out
    stack_inv := fun t ht => hI.stack_inv t (hsub t ht) }

/-- `aux_cfg_insert` preserves the invariant whenever the caller has
checked (or freshness guarantees) that `n` is not yet a successor of the
parent by address. -/
theorem aux_inv {l : List Obs} {s : State} {c n : Nat} {s3 : State}
    (hI : NodeInv l s) (hc : c < s.nodes.length) (hn : n < s.nodes.length)
    (hfresh : ∀ j ∈ (getNode s c).succ,
      (getNode s j).instr.address ≠ (getNode s n).instr.address)
    (h : aux_cfg_insert s c n = some s3) :
    NodeInv l s3 := by
  by_cases htyp : (getNode s c).instr.typ = RET
  · cases hst : s.stack with
    | nil =>
        rw [aux_ret_empty s c n htyp hst] at h
        cases h
        exact grow_append_inv c n hI hc hn hfresh
          (by rw [htyp]; decide) (by rw [htyp]; decide)
    | cons top rest =>
        obtain ⟨htl, htc⟩ := hI.stack_inv top (by rw [hst]; exact List.mem_cons_self top rest)
        by_cases haddr : (getNode s n).instr.address
            = (getNode s top).instr.address + (getNode s top).instr.size
        · by_cases hdup : ∃ j ∈ (getNode s top).succ,
              (getNode s j).instr.address = (getNode s n).instr.address
          · rw [aux_ret_match_dup s c n top rest htyp hst haddr hdup] at h
            cases h
            refine NodeInv_stack rest ?_ hI
            intro t ht
            rw [hst]
            exact List.mem_cons_of_mem top ht
          · push_neg at hdup
            rw [aux_ret_match_new s c n top rest htyp hst haddr hdup] at h
            cases h
            have hI2 : NodeInv l { s with stack := rest } := by
              refine NodeInv_stack rest ?_ hI
              intro t ht
              rw [hst]
              exact List.mem_cons_of_mem top ht
            exact grow_append_inv top n hI2 htl hn hdup
              (by rw [getNode_stack_update s rest top, htc]; decide)
              (by rw [getNode_stack_update s rest top, htc]; decide)
        · rw [aux_ret_mismatch s c n top rest htyp hst haddr] at h
          cases h
          exact grow_append_inv c n hI hc hn hfresh
            (by rw [htyp]; decide) (by rw [htyp]; decide)
  · by_cases hsucc : (getNode s c).succ = []
    · rw [aux_first s c n htyp hsucc] at h
      cases h
      have hout0 : (getNode s c).nb_out = 0 := by
        have := hI.len_out c hc
        rw [hsucc] at this
        simpa using this.symm
      apply add_edge_inv c n hI hc hn hfresh
      · rw [hout0]
        by_cases hB : (getNode s c).instr.typ = BASIC
        · have := (hI.basic_cap c hc hB).1
          omega
        · have := (hI.other_cap c hc hB).1
          omega
      · intro _
        exact hout0
      · intro _
        omega
    · cases ht : (getNode s c).instr.typ with
      | BASIC =>
          by_cases hout : 1 ≤ (getNode s c).nb_out
          · rw [aux_basic_fail s c n ht hsucc hout] at h
            cases h
          · rw [aux_basic_noop s c n ht hsucc (by omega)] at h
            cases h
            exact hI
      | BRANCH =>
          by_cases hout : 2 ≤ (getNode s c).nb_out
          · rw [aux_branch_fail s c n ht hsucc hout] at h
            cases h
          · rw [aux_branch_append s c n ht hsucc (by omega)] at h
            cases h
            apply add_edge_inv c n hI hc hn hfresh
            · have := (hI.other_cap c hc (by rw [ht]; decide)).1
              omega
            · intro hB
              rw [ht] at hB
              cases hB
            · intro _
              omega
      | CALL =>
          rw [aux_call_noop s c n ht hsucc] at h
          cases h
          exact hI
      | JUMP =>
          rw [aux_jump s c n ht hsucc] at h
          cases h
          exact grow_append_inv c n hI hc hn hfresh
            (by rw [ht]; decide) (by rw [ht]; decide)
      | RET => exact absurd ht htyp



/-- A lookup miss in an invariant state means no stored node carries the
missed address: two observations of one address carry the same bytes
(`Consistent`), hence hash to the same bucket, where the lookup would
have found the node. -/
theorem lookup_none_fresh {l : List Obs} {s : State} (hI : NodeInv l s)
    (hcons : Consistent l) (o : Obs) (ho : o ∈ l)
    (hlu : hashtable_lookup s (mkInstr o) = none) :
    ∀ j, j < s.nodes.length → (getNode s j).instr.address ≠ (mkInstr o).address := by
  intro j hj heq
  obtain ⟨o2, ho2, hjo⟩ := hI.node_obs j hj
  have haddr : o2.address = o.address := by
    rw [hjo] at heq
    exact heq
  obtain ⟨hsz, hby⟩ := hcons.2 o2 ho2 o ho haddr
  have hbeq : bucketOf (getNode s j).instr = bucketOf (mkInstr o) := by
    rw [hjo]
    unfold bucketOf hash_instr mkInstr
    simp only
    rw [hby, haddr]
  have hreg := hI.registered j hj
  rw [hbeq] at hreg
  have hnone := List.find?_eq_none.mp hlu j hreg
  simp only [decide_eq_true_eq] at hnone
  exact hnone heq

/-- The bucket array after `cfg_new`: the fresh pointer is appended to
the bucket of the inserted instruction, the rest is unchanged. -/
theorem cfg_new_buckets (s : State) (ins : Instr)
    (hlu : hashtable_lookup s ins = none)
    (hbv : ∀ j ∈ s.buckets (bucketOf ins), j < s.nodes.length) :
    ∀ b, (cfg_new s ins).1.buckets b
      = if b = bucketOf ins then s.buckets b ++ [s.nodes.length] else s.buckets b := by
  have hmiss : ∀ j ∈ s.buckets (bucketOf ins),
      (getNode s j).instr.address ≠ ins.address := by
    intro j hj
    have := List.find?_eq_none.mp hlu j hj
    simpa using this
  have hs1 : ∀ j ∈ s.buckets (bucketOf ins),
      getNode { s with nodes := s.nodes ++ [mkNode ins] } j = getNode s j :=
    fun j hj => getNode_nodes_append_lt s (mkNode ins) j (hbv j hj)
  have haddr : (getNode { s with nodes := s.nodes ++ [mkNode ins] }
      s.nodes.length).instr = ins := by
    rw [getNode_nodes_append_self]
    rfl
  intro b
  unfold cfg_new hashtable_insert
  dsimp only
  rw [if_neg]
  · dsimp only
    rw [haddr]
    by_cases hb : b = bucketOf ins
    · rw [if_pos hb, if_pos hb, hb]
    · rw [if_neg hb, if_neg hb]
  · simp only [haddr, List.any_eq_true, decide_eq_true_eq]
    rintro ⟨j, hj, hja⟩
    rw [hs1 j hj] at hja
    exact hmiss j hj hja

/-- `cfg_new` preserves the invariant: the fresh node is registered in
its own bucket, carries zero degrees, an empty successor array and the
type-dependent initial capacity. -/
theorem cfg_new_inv {l : List Obs} {s : State} (o : Obs) (ho : o ∈ l)
    (hI : NodeInv l s) (hcons : Consistent l)
    (hlu : hashtable_lookup s (mkInstr o) = none) :
    NodeInv l (cfg_new s (mkInstr o)).1 := by
  set ins := mkInstr o with hins
  set sN := (cfg_new s ins).1 with hsN
  have hlen : sN.nodes.length = s.nodes.length + 1 := by
    rw [hsN, cfg_new_nodes]
    simp
  have hG : ∀ j, j < s.nodes.length → getNode sN j = getNode s j :=
    fun j hj => cfg_new_getNode_lt s ins j hj
  have hGN : getNode sN s.nodes.length = mkNode ins := cfg_new_getNode_self s ins
  have hBuck := cfg_new_buckets s ins hlu
    (fun j hj => hI.buckets_lt (bucketOf ins) j hj)
  have hfreshaddr := lookup_none_fresh hI hcons o ho hlu
  refine ⟨?_, ?_, ?_, ?_, ?_, ?_, ?_, ?_, ?_, ?_, ?_⟩
  · intro j hj
    rw [hlen] at hj
    by_cases hjl : j < s.nodes.length
    · rw [hG j hjl]
      exact hI.node_obs j hjl
    · have hje : j = s.nodes.length := by omega
      rw [hje, hGN]
      exact ⟨o, ho, rfl⟩
  · intro j hj
    rw [hlen] at hj
    by_cases hjl : j < s.nodes.length
    · rw [hG j hjl, hBuck]
      split
      · exact List.mem_append_left _ (hI.registered j hjl)
      · exact hI.registered j hjl
    · have hje : j = s.nodes.length := by omega
      rw [hje, hGN]
      have : bucketOf (mkNode ins).instr = bucketOf ins := rfl
      rw [this, hBuck, if_pos rfl]
      exact List.mem_append_right _ (List.mem_singleton.mpr rfl)
  · intro b j hj
    rw [hBuck] at hj
    rw [hlen]
    split at hj
    · rcases List.mem_append.mp hj with hj | hj
      · have := hI.buckets_lt b j hj
        omega
      · simp only [List.mem_singleton] at hj
        omega
    · have := hI.buckets_lt b j hj
      omega
  · intro i hi j hj
    rw [hlen] at hi ⊢
    by_cases hil : i < s.nodes.length
    · rw [hG i hil] at hj
      have := hI.succ_lt i hil j hj
      omega
    · have hie : i = s.nodes.length := by omega
      rw [hie, hGN] at hj
      cases hj
  · intro i hi
    rw [hlen] at hi
    by_cases hil : i < s.nodes.length
    · rw [hG i hil]
      have hmap : (getNode s i).succ.map (fun j => (getNode sN j).instr.address)
          = (getNode s i).succ.map (fun j => (getNode s j).instr.address) := by
        apply List.map_congr_left
        intro j hj
        rw [hG j (hI.succ_lt i hil j hj)]
      rw [hmap]
      exact hI.succ_addr_nodup i hil
    · have hie : i = s.nodes.length := by omega
      rw [hie, hGN]
      simp [mkNode]
  · intro i hi
    rw [hlen] at hi
    by_cases hil : i < s.nodes.length
    · rw [hG i hil]
      exact hI.len_out i hil
    · have hie : i = s.nodes.length := by omega
      rw [hie, hGN]
      rfl
  · intro q hq
    rw [hlen] at hq
    by_cases hql : q < s.nodes.length
    · rw [hG q hql, hI.indeg q hql]
      unfold inCount
      rw [hlen, Finset.range_succ, Finset.filter_insert, if_neg]
      · apply congrArg
        apply Finset.filter_congr
        intro k hk
        rw [hG k (Finset.mem_range.mp hk)]
      · rw [hGN]
        simp [mkNode]
    · have hqe : q = s.nodes.length := by omega
      rw [hqe, hGN]
      show (0 : Nat) = _
      unfold inCount
      rw [hlen, Finset.range_succ, Finset.filter_insert, if_neg]
      · symm
        rw [Finset.card_eq_zero, Finset.filter_eq_empty_iff]
        intro k hk
        rw [hG k (Finset.mem_range.mp hk)]
        intro hmem
        have := hI.succ_lt k (Finset.mem_range.mp hk) _ hmem
        omega
      · rw [hGN]
        simp [mkNode]
  · intro i hi hb
    rw [hlen] at hi
    by_cases hil : i < s.nodes.length
    · rw [hG i hil] at hb ⊢
      exact hI.basic_cap i hil hb
    · have hie : i = s.nodes.length := by omega
      rw [hie, hGN] at hb ⊢
      simp only [mkNode] at hb ⊢
      rw [if_pos hb]
      exact ⟨rfl, by omega⟩
  · intro i hi hb
    rw [hlen] at hi
    by_cases hil : i < s.nodes.length
    · rw [hG i hil] at hb ⊢
      exact hI.other_cap i hil hb
    · have hie : i = s.nodes.length := by omega
      rw [hie, hGN] at hb ⊢
      simp only [mkNode] at hb ⊢
      rw [if_neg hb]
      exact ⟨by omega, ⟨1, rfl⟩, by omega, by omega⟩
  · intro i hi hb
    rw [hlen] at hi
    by_cases hil : i < s.nodes.length
    · rw [hG i hil] at hb ⊢
      exact hI.branch_out i hil hb
    · have hie : i = s.nodes.length := by omega
      rw [hie, hGN]
      show (0 : Nat) ≤ 2
      omega
  · intro t ht
    have ht2 : t ∈ s.stack := by
      have : sN.stack = s.stack := cfg_new_stack s ins
      rw [this] at ht
      exact ht
    obtain ⟨h1, h2⟩ := hI.stack_inv t ht2
    rw [hlen, hG t h1]
    exact ⟨by omega, h2⟩



/-- Pushing a CALL site (and possibly extending the roster) preserves
the invariant. -/
theorem NodeInv_push {l : List Obs} {s : State} (c : Nat) (rst : List Nat)
    (hc : c < s.nodes.length) (htc : (getNode s c).instr.typ = CALL)
    (hI : NodeInv l s) :
    NodeInv l { s with roster := rst, stack := stack_push s.stack c } :=
  { node_obs := hI.node_obs, registered := hI.registered, buckets_lt := hI.buckets_lt
    succ_lt := hI.succ_lt, succ_addr_nodup := hI.succ_addr_nodup, len_out := hI.len_out
    indeg := hI.indeg, basic_cap := hI.basic_cap, other_cap := hI.other_cap
    branch_out := hI.branch_out
    stack_inv := fun t ht => by
      rcases List.mem_cons.mp ht with rfl | ht2
      · exact ⟨hc, htc⟩
      · exact hI.stack_inv t ht2 }

/-- Roster extension alone preserves the invariant. -/
theorem NodeInv_roster {l : List Obs} {s : State} (rst : List Nat)
    (hI : NodeInv l s) : NodeInv l { s with roster := rst } :=
  { node_obs := hI.node_obs, registered := hI.registered, buckets_lt := hI.buckets_lt
    succ_lt := hI.succ_lt, succ_addr_nodup := hI.succ_addr_nodup, len_out := hI.len_out
    indeg := hI.indeg, basic_cap := hI.basic_cap, other_cap := hI.other_cap
    branch_out := hI.branch_out
    stack_inv := hI.stack_inv }

theorem lookup_mem_addr {s : State} {ins : Instr} {found : Nat}
    (hlu : hashtable_lookup s ins = some found) :
    found ∈ s.buckets (bucketOf ins)
      ∧ (getNode s found).instr.address = ins.address := by
  unfold hashtable_lookup at hlu
  refine ⟨List.mem_of_find?_eq_some hlu, ?_⟩
  have := List.find?_some hlu
  simpa using this

/-- `cfg_insert` preserves the invariant, and the returned node is a
valid pointer. -/
theorem cfg_insert_inv {l : List Obs} {s : State} {c : Nat} {o : Obs}
    {s1 : State} {r : Nat}
    (hI : NodeInv l s) (hcons : Consistent l) (ho : o ∈ l)
    (hc : c < s.nodes.length)
    (h : cfg_insert s c (mkInstr o) = some (s1, r)) :
    NodeInv l s1 ∧ r < s1.nodes.length := by
  unfold cfg_insert at h
  cases hlu : hashtable_lookup s (mkInstr o) with
  | none =>
      rw [hlu] at h
      simp only at h
      have hnew : (cfg_new s (mkInstr o)).2 = s.nodes.length := rfl
      rw [hnew] at h
      set sN := (cfg_new s (mkInstr o)).1 with hsN
      have hIN : NodeInv l sN := cfg_new_inv o ho hI hcons hlu
      have hlenN : sN.nodes.length = s.nodes.length + 1 := by
        rw [hsN, cfg_new_nodes]
        simp
      have hG : ∀ j, j < s.nodes.length → getNode sN j = getNode s j :=
        fun j hj => cfg_new_getNode_lt s (mkInstr o) j hj
      have hGN : getNode sN s.nodes.length = mkNode (mkInstr o) :=
        cfg_new_getNode_self s (mkInstr o)
      set sP := if (getNode sN c).instr.typ = CALL
        then { sN with
          roster := sN.roster ++ [s.nodes.length]
          stack := stack_push sN.stack c }
        else sN with hsP
      have hIP : NodeInv l sP := by
        rw [hsP]
        split
        · rename_i hcall
          exact NodeInv_push c _ (by omega) hcall hIN
        · exact hIN
      have hgetP : ∀ x, getNode sP x = getNode sN x := by
        intro x
        rw [hsP]
        split <;> rfl
      have hlenP : sP.nodes.length = sN.nodes.length := by
        rw [hsP]
        split <;> rfl
      cases haux : aux_cfg_insert sP c s.nodes.length with
      | none => rw [haux] at h; cases h
      | some s3 =>
          rw [haux] at h
          simp only [Option.map_some', Option.some.injEq, Prod.mk.injEq] at h
          obtain ⟨h1, h2⟩ := h
          subst h1
          subst h2
          have hfreshaddr := lookup_none_fresh hI hcons o ho hlu
          constructor
          · apply aux_inv hIP (by omega) (by omega) _ haux
            intro j hj
            rw [hgetP c, hG c hc] at hj
            have hjl := hI.succ_lt c hc j hj
            rw [hgetP j, hG j hjl, hgetP s.nodes.length, hGN]
            exact hfreshaddr j hjl
          · have := aux_nodes_length haux
            omega
  | some found =>
      rw [hlu] at h
      simp only at h
      obtain ⟨hfb, hfa⟩ := lookup_mem_addr hlu
      have hfl : found < s.nodes.length := hI.buckets_lt _ found hfb
      set sP := if (getNode s c).instr.typ = CALL
        then { s with stack := stack_push s.stack c } else s with hsP
      have hIP : NodeInv l sP := by
        rw [hsP]
        split
        · rename_i hcall
          have := NodeInv_push c s.roster hc hcall hI
          simpa using this
        · exact hI
      have hgetP : ∀ x, getNode sP x = getNode s x := by
        intro x
        rw [hsP]
        split <;> rfl
      have hlenP : sP.nodes.length = s.nodes.length := by
        rw [hsP]
        split <;> rfl
      by_cases hdup : ((getNode sP c).succ.any
          (fun j => decide ((getNode sP j).instr.address
            = (getNode sP found).instr.address))) = true
      · rw [if_pos hdup] at h
        simp only [Option.some.injEq, Prod.mk.injEq] at h
        obtain ⟨h1, h2⟩ := h
        subst h1
        subst h2
        exact ⟨hIP, by omega⟩
      · rw [if_neg hdup] at h
        cases haux : aux_cfg_insert sP c found with
        | none => rw [haux] at h; cases h
        | some s3 =>
            rw [haux] at h
            simp only [Option.map_some', Option.some.injEq, Prod.mk.injEq] at h
            obtain ⟨h1, h2⟩ := h
            subst h1
            subst h2
            constructor
            · apply aux_inv hIP (by omega) (by omega) _ haux
              intro j hj hja
              apply hdup
              rw [List.any_eq_true]
              exact ⟨j, hj, decide_eq_true hja⟩
            · have := aux_nodes_length haux
              omega



/-- The full builder invariant: the node/bucket/stack invariant plus
validity of the current-node pointer. -/
def Inv (l : List Obs) (s : State) : Prop :=
  NodeInv l s ∧ s.prev < s.nodes.length

theorem NodeInv_roster_prev {l : List Obs} {s : State} (rst : List Nat) (p : Nat)
    (hI : NodeInv l s) : NodeInv l { s with roster := rst, prev := p } :=
  { node_obs := hI.node_obs, registered := hI.registered, buckets_lt := hI.buckets_lt
    succ_lt := hI.succ_lt, succ_addr_nodup := hI.succ_addr_nodup, len_out := hI.len_out
    indeg := hI.indeg, basic_cap := hI.basic_cap, other_cap := hI.other_cap
    branch_out := hI.branch_out
    stack_inv := hI.stack_inv }

theorem initState_inv (l : List Obs) (o : Obs) (ho : o ∈ l) (hcons : Consistent l) :
    Inv l (initState o) := by
  have hE : NodeInv l { nodes := [], buckets := fun _ => [], stack := [], roster := [], prev := 0 } :=
    { node_obs := fun j hj => absurd hj (by simp)
      registered := fun j hj => absurd hj (by simp)
      buckets_lt := fun b j hj => absurd hj (List.not_mem_nil j)
      succ_lt := fun i hi => absurd hi (by simp)
      succ_addr_nodup := fun i hi => absurd hi (by simp)
      len_out := fun i hi => absurd hi (by simp)
      indeg := fun n hn => absurd hn (by simp)
      basic_cap := fun i hi => absurd hi (by simp)
      other_cap := fun i hi => absurd hi (by simp)
      branch_out := fun i hi => absurd hi (by simp)
      stack_inv := fun t ht => absurd ht (List.not_mem_nil t) }
  have hlu : hashtable_lookup { nodes := [], buckets := fun _ => [], stack := [], roster := [], prev := 0 } (mkInstr o) = none := rfl
  have hN := cfg_new_inv o ho hE hcons hlu
  constructor
  · exact NodeInv_roster_prev _ _ hN
  · show (0 : Nat) < (cfg_new { nodes := [], buckets := fun _ => [], stack := [], roster := [], prev := 0 } (mkInstr o)).1.nodes.length
    rw [cfg_new_nodes]
    simp

theorem stepObs_inv {l : List Obs} {s s2 : State} {o : Obs}
    (hI : Inv l s) (hcons : Consistent l) (ho : o ∈ l)
    (h : stepObs s o = some s2) : Inv l s2 := by
  unfold stepObs at h
  cases hres : cfg_insert s s.prev (mkInstr o) with
  | none => rw [hres] at h; cases h
  | some p =>
      rw [hres] at h
      simp only [Option.map_some', Option.some.injEq] at h
      subst h
      obtain ⟨hN, hr⟩ := cfg_insert_inv hI.1 hcons ho hI.2 (by rw [hres])
      exact ⟨NodeInv_roster_prev _ _ hN, hr⟩

theorem foldl_inv {l : List Obs} (hcons : Consistent l) :
    ∀ (obs : List Obs) (s0 s : State), (∀ o ∈ obs, o ∈ l) → Inv l s0 →
      obs.foldlM stepObs s0 = some s → Inv l s := by
  intro obs
  induction obs with
  | nil =>
      intro s0 s _ hI h
      simp only [List.foldlM_nil] at h
      cases h
      exact hI
  | cons o t ih =>
      intro s0 s hsub hI h
      simp only [List.foldlM_cons] at h
      cases hstep : stepObs s0 o with
      | none => rw [hstep] at h; cases h
      | some s1 =>
          rw [hstep] at h
          exact ih s1 s (fun x hx => hsub x (List.mem_cons_of_mem o hx))
            (stepObs_inv hI hcons (hsub o (List.mem_cons_self o t)) hstep) h

/-- Any state produced by `run` over a consistent stream satisfies the
builder invariant. -/
theorem run_inv {l : List Obs} {s : State} (hcons : Consistent l)
    (h : run l = some s) : Inv l s := by
  cases l with
  | nil => cases h
  | cons o rest =>
      exact foldl_inv hcons rest (initState o) s
        (fun x hx => List.mem_cons_of_mem o hx)
        (initState_inv _ o (List.mem_cons_self o rest) hcons) h



theorem grow_append_cap_at (s : State) (c n : Nat) (hc : c < s.nodes.length) :
    (getNode (grow_append s c n) c).cap = grown_cap (getNode s c) := by
  by_cases hnc : n = c
  · rw [hnc, grow_append_get_self _ _ hc]
  · rw [grow_append_get_m _ _ _ hc hnc]

/-- Observation stream and initial state used by the concrete
witnesses: a CALL at 100 followed by the RET at 200. -/
def demoL : List Obs := [⟨100, 2, [0xE8, 0, 0]⟩, ⟨200, 1, [0xC3, 0, 0]⟩]

def demoInit : State := initState ⟨100, 2, [0xE8, 0, 0]⟩

/-- C5: after any sequence of observations, for every node `n` (in
particular every node reachable from a function root), `n.in_degree`
equals the number of distinct nodes `m` such that `n` occurs in `m`'s
successor array, and no successor array contains two entries with the
same instruction address.  Proved for every allocated node, which
subsumes the reachable ones. -/
theorem C5_indegree_counts_predecessors (l : List Obs) (s : State)
    (hcons : Consistent l) (hrun : run l = some s) :
    (∀ n, n < s.nodes.length → (getNode s n).nb_in = inCount s n) ∧
    (∀ m, m < s.nodes.length →
      (((getNode s m).succ.map (fun j => (getNode s j).instr.address)).Nodup)) :=
  ⟨(run_inv hcons hrun).1.indeg, (run_inv hcons hrun).1.succ_addr_nodup⟩

/-- Witness for C5 on a concrete two-observation run. -/
theorem C5_indegree_counts_predecessors_witness :
    (getNode ((run demoL).getD demoInit) 1).nb_in
      = inCount ((run demoL).getD demoInit) 1 :=
  (C5_indegree_counts_predecessors demoL ((run demoL).getD demoInit)
    (by unfold Consistent; decide) (by rfl)).1 1 (by decide)

/-- Fixture for the C7 witness: a BASIC node that already has its one
successor. -/
def wBasicFull : Node :=
  { instr := ⟨300, 1, [0x90], BASIC⟩, nb_in := 0, nb_out := 1
    name := 0, succ := [1], cap := 1 }

def wStateB : State :=
  { nodes := [wBasicFull, wRet], buckets := fun _ => [], stack := []
    roster := [0], prev := 0 }

/-- C7: in every state produced by a run, BASIC nodes have out_degree
at most 1 and BRANCH nodes at most 2; and an attempt to add a successor
to a BASIC node that already has one, or a third successor to a BRANCH
node, makes `aux_cfg_insert` return NULL (the driver then aborts the
build) instead of adding the edge. -/
theorem C7_basic_branch_degree_bounds :
    (∀ l s, Consistent l → run l = some s → ∀ i, i < s.nodes.length →
      ((getNode s i).instr.typ = BASIC → (getNode s i).nb_out ≤ 1) ∧
      ((getNode s i).instr.typ = BRANCH → (getNode s i).nb_out ≤ 2)) ∧
    (∀ s c n, (getNode s c).instr.typ = BASIC → (getNode s c).succ ≠ [] →
      1 ≤ (getNode s c).nb_out → aux_cfg_insert s c n = none) ∧
    (∀ s c n, (getNode s c).instr.typ = BRANCH → (getNode s c).succ ≠ [] →
      2 ≤ (getNode s c).nb_out → aux_cfg_insert s c n = none) :=
  ⟨fun l s hcons hrun i hi =>
      ⟨fun hb => ((run_inv hcons hrun).1.basic_cap i hi hb).2,
        fun hb => (run_inv hcons hrun).1.branch_out i hi hb⟩,
    aux_basic_fail,
    aux_branch_fail⟩

/-- Witness for C7: inserting behind the saturated BASIC node fails. -/
theorem C7_basic_branch_degree_bounds_witness :
    aux_cfg_insert wStateB 0 1 = none :=
  C7_basic_branch_degree_bounds.2.1 wStateB 0 1 (by decide) (by decide) (by decide)

/-- C8: in every state produced by a run, every node satisfies
`out_degree ≤ capacity` with the capacity a power of two; and for the
JUMP (and unmatched-RET) append path the successor array ends up with
capacity `2 * out_degree` exactly when the current out_degree is a
(mathematical) power of two, and with its old capacity otherwise.  (The
source's `is_power_2` is false at `out_degree = 1`, but there the old
capacity is necessarily 2 = 2 * out_degree, so the "exactly when"
reading holds on reachable states.) -/
theorem C8_capacity_power_of_two :
    (∀ l s, Consistent l → run l = some s → ∀ i, i < s.nodes.length →
      (getNode s i).nb_out ≤ (getNode s i).cap ∧ pow2 (getNode s i).cap) ∧
    (∀ l s, Consistent l → run l = some s → ∀ c n, c < s.nodes.length →
      ((getNode s c).instr.typ = JUMP
        ∨ ((getNode s c).instr.typ = RET ∧ (s.stack = [] ∨
            ∃ top rest, s.stack = top :: rest ∧ (getNode s n).instr.address
              ≠ (getNode s top).instr.address + (getNode s top).instr.size))) →
      (getNode s c).succ ≠ [] →
      aux_cfg_insert s c n = some (grow_append s c n) ∧
      (pow2 (getNode s c).nb_out →
        (getNode (grow_append s c n) c).cap = 2 * (getNode s c).nb_out) ∧
      (¬ pow2 (getNode s c).nb_out →
        (getNode (grow_append s c n) c).cap = (getNode s c).cap)) := by
  constructor
  · intro l s hcons hrun i hi
    by_cases hb : (getNode s i).instr.typ = BASIC
    · obtain ⟨h1, h2⟩ := (run_inv hcons hrun).1.basic_cap i hi hb
      exact ⟨by omega, ⟨0, by omega⟩⟩
    · obtain ⟨h1, h2, h3, h4⟩ := (run_inv hcons hrun).1.other_cap i hi hb
      exact ⟨h3, h2⟩
  · intro l s hcons hrun c n hc htyp hsucc
    have hI := (run_inv hcons hrun).1
    have hne : (getNode s c).instr.typ ≠ BASIC := by
      rcases htyp with h | ⟨h, _⟩ <;> rw [h] <;> decide
    obtain ⟨hc2, hpow, hle, hub⟩ := hI.other_cap c hc hne
    have hcap := grow_append_cap_at s c n hc
    have haux : aux_cfg_insert s c n = some (grow_append s c n) := by
      rcases htyp with h | ⟨h, hst⟩
      · exact aux_jump s c n h hsucc
      · rcases hst with hst | ⟨top, rest, hst, hmis⟩
        · exact aux_ret_empty s c n h hst
        · exact aux_ret_mismatch s c n top rest h hst hmis
    refine ⟨haux, ?_, ?_⟩
    · intro hp
      rw [hcap]
      unfold grown_cap
      by_cases h1 : (getNode s c).nb_out = 1
      · rw [if_neg]
        · have hmx : max (getNode s c).nb_out 1 = 1 := by omega
          omega
        · intro hip
          obtain ⟨h2, _⟩ := (is_power_2_iff _).mp hip
          omega
      · obtain ⟨k, hk⟩ := hp
        have h0 : 0 < (getNode s c).nb_out := by
          rw [hk]
          exact Nat.pos_pow_of_pos k (by omega)
        rw [if_pos ((is_power_2_iff _).mpr ⟨by omega, ⟨k, hk⟩⟩)]
    · intro hp
      rw [hcap]
      unfold grown_cap
      rw [if_neg]
      intro hip
      exact hp ((is_power_2_iff _).mp hip).2

/-- Witness for C8 on the concrete two-observation run. -/
theorem C8_capacity_power_of_two_witness :
    (getNode ((run demoL).getD demoInit) 0).nb_out
      ≤ (getNode ((run demoL).getD demoInit) 0).cap :=
  ((C8_capacity_power_of_two.1 demoL ((run demoL).getD demoInit)
    (by unfold Consistent; decide) (by rfl)) 0 (by decide)).1


end Tracker
